import Mathlib

/-!
# ProcessFlowUtils

A shallow embedding of the Script Include `ProcessFlowUtils.js`
(`getProcessFlowSteps` and `_parseColor`) and the properties of its
natural-language specification.

Conventions of the embedding.

* A JavaScript string is a `List Char`.  Both regular expressions of `_parseColor`
  are anchored at both ends and accept ASCII characters only, so the difference
  between UTF-16 code units and Unicode scalar values cannot be observed.
* A JavaScript Number produced by `parseInt` is a `JSNum`: a finite non-negative
  integer value, `NaN` or `Infinity`.  `parseInt` rounds the mathematical value of
  the digits to the nearest IEEE-754 double (`toNumber`).
* The collaborators of the host platform are parameters: the condition evaluator
  `GlideFilter.checkRecord`, and the query on `sys_process_flow`
  (`table=<tableName>^active=true`, ordered by `order`), given as the function
  from a table name to the ordered rows the cursor yields.
* The code is embedded three times: as functions of its inputs (`_parseColor`,
  `getProcessFlowSteps`), with the host calls it makes (`getProcessFlowStepsTraced`),
  and on the objects of the host that carry state, the `RegExp` objects with their
  `lastIndex` and the `GlideRecord` cursor (`getProcessFlowStepsHost`).  The three are
  proved to return the same output.
-/

namespace ProcessFlowUtils

/-! ## Data model -/

/-- A JavaScript string. -/
abbrev JSString := List Char

/-- The Number values that `parseInt` can return on the strings `_parseColor`
hands to it: a finite non-negative integer, `NaN`, or `+Infinity`. -/
inductive JSNum where
  | num (n : Nat)
  | NaN
  | Infinity
  deriving DecidableEq

/-- The three values the code gives to the `state` parameter of a choice. -/
inductive StepState where
  | past
  | current
  | future
  deriving DecidableEq

/-- The record `current`: what `isValidRecord()` answers and the value of its
`sys_class_name` field.  A null or undefined `current` is `none : Option GlideRecord`. -/
structure GlideRecord where
  isValidRecord : Bool
  sys_class_name : JSString
  deriving DecidableEq

/-- One row of `sys_process_flow` as the loop reads it: `getValue('name')`,
`getDisplayValue('label')`, the `condition` field, `getValue('u_color')` (`none` when
the field is null) and whether `getValue('u_end_step') == 1` holds. -/
structure ProcessFlowRow where
  name : JSString
  label : JSString
  condition : JSString
  u_color : Option JSString
  u_end_step : Bool
  deriving DecidableEq

/-- A `GlideChoice`: value, label and the two parameters the code sets.  The
parameter `rgb_triplet` is `parsedColorArray.join(', ')`; it is kept as the array that
is joined. -/
structure GlideChoice where
  name : JSString
  label : JSString
  state : StepState
  rgb_triplet : Option (List JSNum)
  deriving DecidableEq

/-! ## `_parseColor` -/

/-- The number of binary digits of `n` (0 for 0), by halving at most `fuel` times. -/
def bitLengthAux : Nat → Nat → Nat
  | 0, _ => 0
  | fuel + 1, n => if n = 0 then 0 else bitLengthAux fuel (n / 2) + 1

/-- The number of binary digits of `n`. -/
def bitLength (n : Nat) : Nat := bitLengthAux n n

/-- The Number value of a non-negative mathematical integer: itself when it has at
most 53 binary digits, otherwise rounded to 53 significant binary digits, ties to
even, and `Infinity` when the rounded value reaches `2^1024` (more than 1024 binary
digits).  ECMAScript lets `parseInt` replace the decimal digits after the 20th by `0`
before this rounding; the rounding modelled is the exact one. -/
def toNumber (n : Nat) : JSNum :=
  if bitLength n ≤ 53 then JSNum.num n
  else
    let e := bitLength n - 53
    let q := n / 2 ^ e
    let r := n % 2 ^ e
    let half := 2 ^ (e - 1)
    let q' := if half < r ∨ (r = half ∧ q % 2 = 1) then q + 1 else q
    if 1024 < bitLength (q' * 2 ^ e) then JSNum.Infinity else JSNum.num (q' * 2 ^ e)

/-- The class `\d`. -/
def isDigit (c : Char) : Bool := 48 ≤ c.toNat && c.toNat ≤ 57

/-- The class `[, ]`. -/
def isSep (c : Char) : Bool := c == ',' || c == ' '

/-- The class `[, /]`. -/
def isAlphaSep (c : Char) : Bool := c == ',' || c == ' ' || c == '/'

/-- The class `[\d\.%]`. -/
def isAlphaChar (c : Char) : Bool := isDigit c || c == '.' || c == '%'

/-- The class `[a-f\d]` under the `i` flag: `0-9`, `a-f` and `A-F`. -/
def isHexDigit (c : Char) : Bool :=
  isDigit c || (97 ≤ c.toNat && c.toNat ≤ 102) || (65 ≤ c.toNat && c.toNat ≤ 70)

/-- The value of a digit in a radix up to 16 (`none` for any other character). -/
def digitValue (c : Char) : Option Nat :=
  if isDigit c then some (c.toNat - 48)
  else if 97 ≤ c.toNat && c.toNat ≤ 102 then some (c.toNat - 87)
  else if 65 ≤ c.toNat && c.toNat ≤ 70 then some (c.toNat - 55)
  else none

/-- Whether `c` is a digit of the given radix. -/
def isRadixDigit (radix : Nat) (c : Char) : Bool :=
  match digitValue c with
  | some v => decide (v < radix)
  | none => false

/-- The mathematical integer written by a list of digits in the given radix. -/
def mathInt (radix : Nat) (digits : JSString) : Nat :=
  digits.foldl (fun acc c => acc * radix + (digitValue c).getD 0) 0

/-- The function `parseInt(string, radix)` for radix 10 or 16 on a string that starts
with neither white space, a sign nor `0x`: the strings it receives here are
capture groups of `\d+` and slices of a string of `[a-f\d]`.  The longest prefix of
digits of the radix is read; an empty prefix gives `NaN`. -/
def parseInt (string : JSString) (radix : Nat) : JSNum :=
  match string.takeWhile (isRadixDigit radix) with
  | [] => JSNum.NaN
  | z => toNumber (mathInt radix z)

/-- The constructs of the two regular expressions of `_parseColor`: a literal
character, `[...]+` (greedy), `[...]{n}`, concatenation, `x?` and `(?:x)?` (greedy),
`x|y`, and a capturing group `(x)`.  A character class is its membership test. -/
inductive Regex where
  | lit (c : Char)
  | plus (p : Char → Bool)
  | times (n : Nat) (p : Char → Bool)
  | seq (a b : Regex)
  | opt (a : Regex)
  | alt (a b : Regex)
  | group (a : Regex)

/-- A backtracking choice: the first alternative if it leads to a match, else the
second. -/
def firstSome {β : Type} (a b : Option β) : Option β :=
  match a with
  | some x => some x
  | none => b

/-- After a first character of the class: the longest run is tried first, then each
shorter one, until the continuation `k` matches what remains. -/
def plusLoop {β : Type} (p : Char → Bool) : JSString → (JSString → Option β) → Option β
  | [], k => k []
  | c :: t, k => if p c then firstSome (plusLoop p t k) (k (c :: t)) else k (c :: t)

/-- Exactly `n` characters of the class, then the continuation `k`. -/
def timesLoop {β : Type} (p : Char → Bool) :
    Nat → JSString → (JSString → Option β) → Option β
  | 0, s, k => k s
  | _ + 1, [], _ => none
  | n + 1, c :: t, k => if p c then timesLoop p n t k else none

/-- The backtracking matcher: `re.run s caps k` matches `re` at the start of `s`, with the
groups captured so far in `caps`, and hands what remains of the input and the
captures to the continuation `k`; alternatives are tried in the order of the
ECMAScript semantics and the first complete match is returned. -/
def Regex.run : Regex → JSString → List JSString →
    (JSString → List JSString → Option (List JSString)) → Option (List JSString)
  | Regex.lit c, s, caps, k =>
    match s with
    | x :: t => if x = c then k t caps else none
    | [] => none
  | Regex.plus p, s, caps, k =>
    match s with
    | x :: t => if p x then plusLoop p t (fun s' => k s' caps) else none
    | [] => none
  | Regex.times n p, s, caps, k => timesLoop p n s (fun s' => k s' caps)
  | Regex.seq a b, s, caps, k => a.run s caps (fun s' caps' => b.run s' caps' k)
  | Regex.opt a, s, caps, k => firstSome (a.run s caps k) (k s caps)
  | Regex.alt a b, s, caps, k => firstSome (a.run s caps k) (b.run s caps k)
  | Regex.group a, s, caps, k =>
    a.run s caps (fun s' caps' => k s' (caps' ++ [s.take (s.length - s'.length)]))

/-- The end `$` of a pattern: a match is complete when no input remains; the match
array is the whole matched input followed by the captures. -/
def atEnd (input : JSString) : JSString → List JSString → Option (List JSString) :=
  fun s caps => if s = [] then some (input :: caps) else none

/-- The call `new RegExp(/^re$/g).exec(input)` on a fresh object (`lastIndex` 0): the
match array, or `none` for `null`. -/
def Regex.exec (re : Regex) (input : JSString) : Option (List JSString) :=
  re.run input [] (atEnd input)

/-- The pattern `/^rgba?\((\d+)[, ]+(\d+)[, ]+(\d+)(?:[, /]+[\d\.%]+)?\)$/g`. -/
def rgbaExp : Regex :=
  Regex.seq (Regex.lit 'r') (Regex.seq (Regex.lit 'g') (Regex.seq (Regex.lit 'b')
  (Regex.seq (Regex.opt (Regex.lit 'a')) (Regex.seq (Regex.lit '(')
  (Regex.seq (Regex.group (Regex.plus isDigit)) (Regex.seq (Regex.plus isSep)
  (Regex.seq (Regex.group (Regex.plus isDigit)) (Regex.seq (Regex.plus isSep)
  (Regex.seq (Regex.group (Regex.plus isDigit))
  (Regex.seq (Regex.opt (Regex.seq (Regex.plus isAlphaSep) (Regex.plus isAlphaChar)))
  (Regex.lit ')')))))))))))

/-- The pattern `/^#(?:[a-f\d]{3}|[a-f\d]{6})$/gi`. -/
def hexExp : Regex :=
  Regex.seq (Regex.lit '#') (Regex.alt (Regex.times 3 isHexDigit) (Regex.times 6 isHexDigit))

/-- The call `str.replace(/^#/, '')`: drops one leading `#`. -/
def dropHash (s : JSString) : JSString :=
  match s with
  | '#' :: t => t
  | _ => s

/-- The call `str.slice(i, j)` for `0 ≤ i ≤ j`. -/
def slice (s : JSString) (i j : Nat) : JSString := (s.take j).drop i

/-- The function `_parseColor(input)`: a length-3 array of Numbers, or `none` for `null`. -/
def _parseColor (input : JSString) : Option (List JSNum) :=
  let rgbaMatches := rgbaExp.exec input
  -- `!gs.nil(rgbaMatches) && rgbaMatches.length == 4`
  match rgbaMatches.filter (fun m => m.length == 4) with
  -- `parseInt(nStr)` has no radix argument: radix 10 on a string of decimal digits
  | some m => some ((m.drop 1).map (fun nStr => parseInt nStr 10))
  | none =>
    let hexMatches := hexExp.exec input
    match hexMatches with
    | some (m0 :: _) =>
      let hexString := dropHash m0
      -- `!hexString.length == 6` is `(!hexString.length) == 6`: a boolean compared
      -- with 6 after conversion to a number
      let notLength : Bool := hexString.length == 0
      let hexString :=
        if (if notLength then 1 else 0) = 6 then
          (hexString.map (fun s => ['0', s])).flatten
        else hexString
      some ([slice hexString 0 2, slice hexString 2 4, slice hexString 4 6].map
        (fun hexStr => parseInt hexStr 16))
    | _ => none

/-! ### The two patterns read deterministically

Neighbouring pieces of the two patterns accept disjoint sets of characters, so
backtracking never finds a match the greedy reading misses.  The functions below
are that reading; `rgbaExp_exec` and `hexExp_exec` prove them equal to the matcher. -/

/-- One or more characters of a class, greedily: the matched characters and the rest. -/
def many1 (p : Char → Bool) (s : JSString) : Option (JSString × JSString) :=
  match s.takeWhile p with
  | [] => none
  | m => some (m, s.dropWhile p)

/-- The start `^rgba?\(` of the first pattern: what follows it in the input. -/
def rgbaPrefix (input : JSString) : Option JSString :=
  match input with
  | 'r' :: 'g' :: 'b' :: '(' :: s => some s
  | 'r' :: 'g' :: 'b' :: 'a' :: '(' :: s => some s
  | _ => none

/-- The greedy reading of `rgbaExp`: the three capture groups, `none` when there is no
match. -/
def rgbaExec (input : JSString) : Option (JSString × JSString × JSString) :=
  match rgbaPrefix input with
  | none => none
  | some s2 =>
    match many1 isDigit s2 with
    | none => none
    | some (r, s3) =>
    match many1 isSep s3 with
    | none => none
    | some (_, s4) =>
    match many1 isDigit s4 with
    | none => none
    | some (g, s5) =>
    match many1 isSep s5 with
    | none => none
    | some (_, s6) =>
    match many1 isDigit s6 with
    | none => none
    | some (b, s7) =>
      if s7 = [')'] then some (r, g, b)
      else
        match many1 isAlphaSep s7 with
        | none => none
        | some (_, s8) =>
        match many1 isAlphaChar s8 with
        | none => none
        | some (_, s9) => if s9 = [')'] then some (r, g, b) else none

/-- The reading of `hexExp` by length: element 0 of the match (the whole input), `none`
when there is no match. -/
def hexExec (input : JSString) : Option JSString :=
  match input with
  | '#' :: ds =>
    if (ds.length = 3 ∨ ds.length = 6) ∧ ds.all isHexDigit = true then some input else none
  | _ => none

/-! ## `getProcessFlowSteps` -/

/-- The function `gs.nil` on the value of `u_color`: null or the empty string. -/
def nilString (v : Option JSString) : Bool :=
  match v with
  | none => true
  | some s => s.isEmpty

/-- The variables the `while` loop updates. -/
structure LoopState where
  choices : List GlideChoice
  foundCurrentStep : Bool
  reachedEndStep : Bool
  deriving DecidableEq

/-- The body of the `while` loop for the row `pfGr` the cursor is on. -/
def loopBody (checkRecord : GlideRecord → JSString → Bool) (current : GlideRecord)
    (st : LoopState) (pfGr : ProcessFlowRow) : LoopState :=
  let choice : GlideChoice :=
    { name := pfGr.name, label := pfGr.label, state := StepState.past, rgb_triplet := none }
  let conditionsMatch := checkRecord current pfGr.condition
  if !st.foundCurrentStep && conditionsMatch then
    let choice := { choice with state := StepState.current }
    let choice :=
      if !nilString pfGr.u_color then
        match _parseColor (pfGr.u_color.getD []) with
        | some parsedColorArray =>
          if parsedColorArray.length = 3 then
            { choice with rgb_triplet := some parsedColorArray }
          else choice
        | none => choice
      else choice
    { choices := st.choices ++ [choice]
      foundCurrentStep := true
      reachedEndStep := st.reachedEndStep || pfGr.u_end_step }
  else if st.foundCurrentStep then
    { st with choices := st.choices ++ [{ choice with state := StepState.future }] }
  else
    { st with choices := st.choices ++ [choice] }

/-- The loop `while (pfGr.next() && !reachedEndStep)` over the rows the cursor
still has to yield. -/
def whileLoop (checkRecord : GlideRecord → JSString → Bool) (current : GlideRecord) :
    List ProcessFlowRow → LoopState → LoopState
  | [], st => st
  | pfGr :: rest, st =>
    if st.reachedEndStep then st
    else whileLoop checkRecord current rest (loopBody checkRecord current st pfGr)

/-- The function `getProcessFlowSteps(current)`; `none` is `null`.  `sysProcessFlow`
answers the query on `sys_process_flow` for a table name. -/
def getProcessFlowSteps (checkRecord : GlideRecord → JSString → Bool)
    (sysProcessFlow : JSString → List ProcessFlowRow)
    (current : Option GlideRecord) : Option (List GlideChoice) :=
  match current with
  | none => none
  | some current =>
    if !current.isValidRecord then none
    else
      let tableName := current.sys_class_name
      let pfGr := sysProcessFlow tableName
      if pfGr.isEmpty then none
      else
        some (whileLoop checkRecord current pfGr
          { choices := [], foundCurrentStep := false, reachedEndStep := false }).choices

/-! ## The shape of the output of `getProcessFlowSteps` -/

/-- The choice the loop adds for a row before any row has matched, when the row
does not match. -/
def pastChoice (d : ProcessFlowRow) : GlideChoice :=
  { name := d.name, label := d.label, state := StepState.past, rgb_triplet := none }

/-- The choice the loop adds for a row once an earlier row has matched. -/
def futureChoice (d : ProcessFlowRow) : GlideChoice :=
  { name := d.name, label := d.label, state := StepState.future, rgb_triplet := none }

/-- The value of the parameter `rgb_triplet` of the current step (`none`: not set). -/
def currentTriplet (d : ProcessFlowRow) : Option (List JSNum) :=
  if nilString d.u_color then none
  else
    match _parseColor (d.u_color.getD []) with
    | some parsedColorArray => if parsedColorArray.length = 3 then some parsedColorArray else none
    | none => none

/-- The choice the loop adds for the first row that matches. -/
def currentChoice (d : ProcessFlowRow) : GlideChoice :=
  { name := d.name, label := d.label, state := StepState.current,
    rgb_triplet := currentTriplet d }

/-- The loop variables before the first iteration. -/
def initState : LoopState :=
  { choices := [], foundCurrentStep := false, reachedEndStep := false }

/-! ## Concrete inputs -/

/-- A valid record of the table `incident`. -/
def exRecord : GlideRecord := { isValidRecord := true, sys_class_name := "incident".toList }

/-- A condition evaluator: a condition matches when it is the text `TRUE`. -/
def exCheck : GlideRecord → JSString → Bool := fun _ condition => condition == "TRUE".toList

/-- A condition evaluator under which nothing matches. -/
def exCheckNone : GlideRecord → JSString → Bool := fun _ _ => false

/-- Row `A`: does not match. -/
def rowA : ProcessFlowRow :=
  { name := "A".toList, label := "Step A".toList, condition := "FALSE".toList,
    u_color := none, u_end_step := false }

/-- Row `B`, an end step: matches, colour `#0f0`. -/
def rowBEnd : ProcessFlowRow :=
  { name := "B".toList, label := "Step B".toList, condition := "TRUE".toList,
    u_color := some "#0f0".toList, u_end_step := true }

/-- Row `B`, not an end step: matches, colour `rgb(0, 122, 255)`. -/
def rowBOpen : ProcessFlowRow :=
  { name := "B".toList, label := "Step B".toList, condition := "TRUE".toList,
    u_color := some "rgb(0, 122, 255)".toList, u_end_step := false }

/-- Row `C`: matches, an end step, colour `#ff00ff`. -/
def rowC : ProcessFlowRow :=
  { name := "C".toList, label := "Step C".toList, condition := "TRUE".toList,
    u_color := some "#ff00ff".toList, u_end_step := true }

/-- Rows whose first match is an end step. -/
def exRowsEnd : List ProcessFlowRow := [rowA, rowBEnd, rowC]

/-- Rows whose first match is not an end step. -/
def exRowsOpen : List ProcessFlowRow := [rowA, rowBOpen, rowC]

/-- The string is empty or its first character is outside the class `p`. -/
def NotHead (p : Char → Bool) : JSString → Prop
  | [] => True
  | c :: _ => p c = false

/-- A non-empty string of characters of the class `p`. -/
def Run (p : Char → Bool) (s : JSString) : Prop := s ≠ [] ∧ ∀ c ∈ s, p c = true

/-- What may stand between the third channel and the closing bracket: nothing, or
an alpha group, one or more of `,`, space and `/` followed by one or more of digits,
`.` and `%`. -/
def AlphaTail (tail : JSString) : Prop :=
  tail = [] ∨ ∃ sep alpha, Run isAlphaSep sep ∧ Run isAlphaChar alpha ∧ tail = sep ++ alpha

/-- The functional notation in the words of the specification: `rgb(` or `rgba(`, three
channels of one or more decimal digits separated by one or more commas and
spaces, an optional alpha group, and `)`. -/
def SpecFunctional (s : JSString) : Prop :=
  ∃ pre r s1 g s2 b tail,
    (pre = "rgb(".toList ∨ pre = "rgba(".toList) ∧
    Run isDigit r ∧ Run isSep s1 ∧ Run isDigit g ∧ Run isSep s2 ∧ Run isDigit b ∧
    AlphaTail tail ∧
    s = pre ++ r ++ s1 ++ g ++ s2 ++ b ++ tail ++ ")".toList

/-- The hexadecimal notation in the words of the specification: `#` followed by exactly
3 or exactly 6 hexadecimal digits of either case. -/
def SpecHex (s : JSString) : Prop :=
  ∃ ds, s = '#' :: ds ∧ (ds.length = 3 ∨ ds.length = 6) ∧ ∀ c ∈ ds, isHexDigit c = true

/-- The part `(?:[, /]+[\d\.%]+)?\)` of `rgbaExp`. -/
def rgbaTail : Regex :=
  Regex.seq (Regex.opt (Regex.seq (Regex.plus isAlphaSep) (Regex.plus isAlphaChar)))
    (Regex.lit ')')

/-- The part of `rgbaExp` from the third channel on. -/
def rgbaBlue : Regex := Regex.seq (Regex.group (Regex.plus isDigit)) rgbaTail

/-- The part of `rgbaExp` from the second channel on. -/
def rgbaGreen : Regex :=
  Regex.seq (Regex.group (Regex.plus isDigit)) (Regex.seq (Regex.plus isSep) rgbaBlue)

/-- The part of `rgbaExp` from the first channel on. -/
def rgbaRed : Regex :=
  Regex.seq (Regex.group (Regex.plus isDigit)) (Regex.seq (Regex.plus isSep) rgbaGreen)

/-- The test `Number.isInteger`: a finite Number without fractional part. -/
def JSNum.isInteger : JSNum → Bool
  | JSNum.num _ => true
  | JSNum.NaN => false
  | JSNum.Infinity => false

/-! ## `getProcessFlowSteps` with the calls it makes into the host

The same loop, also recording, in order, the two kinds of call into the host
platform that the loop makes: `GlideFilter.checkRecord` and `gs.error`.  The list of
calls made so far is the only host state a call of `getProcessFlowSteps` changes. -/

/-- A call from the loop into the host platform. -/
inductive HostCall where
  | checkRecord (condition : JSString)
  | error (customColor : JSString)
  deriving DecidableEq

/-- The body of the `while` loop, with the calls it adds to those made so far. -/
def loopBodyTraced (checkRecord : GlideRecord → JSString → Bool) (current : GlideRecord)
    (st : LoopState) (calls : List HostCall) (pfGr : ProcessFlowRow) :
    LoopState × List HostCall :=
  let choice : GlideChoice :=
    { name := pfGr.name, label := pfGr.label, state := StepState.past, rgb_triplet := none }
  let conditionsMatch := checkRecord current pfGr.condition
  let calls := calls ++ [HostCall.checkRecord pfGr.condition]
  if !st.foundCurrentStep && conditionsMatch then
    let choice := { choice with state := StepState.current }
    let colored : GlideChoice × List HostCall :=
      if !nilString pfGr.u_color then
        match _parseColor (pfGr.u_color.getD []) with
        | some parsedColorArray =>
          if parsedColorArray.length = 3 then
            ({ choice with rgb_triplet := some parsedColorArray }, calls)
          else (choice, calls ++ [HostCall.error (pfGr.u_color.getD [])])
        | none => (choice, calls ++ [HostCall.error (pfGr.u_color.getD [])])
      else (choice, calls)
    ({ choices := st.choices ++ [colored.1]
       foundCurrentStep := true
       reachedEndStep := st.reachedEndStep || pfGr.u_end_step }, colored.2)
  else if st.foundCurrentStep then
    ({ st with choices := st.choices ++ [{ choice with state := StepState.future }] }, calls)
  else
    ({ st with choices := st.choices ++ [choice] }, calls)

/-- The loop `while (pfGr.next() && !reachedEndStep)`, with the calls it makes. -/
def whileLoopTraced (checkRecord : GlideRecord → JSString → Bool) (current : GlideRecord) :
    List ProcessFlowRow → LoopState → List HostCall → LoopState × List HostCall
  | [], st, calls => (st, calls)
  | pfGr :: rest, st, calls =>
    if st.reachedEndStep then (st, calls)
    else
      whileLoopTraced checkRecord current rest
        (loopBodyTraced checkRecord current st calls pfGr).1
        (loopBodyTraced checkRecord current st calls pfGr).2

/-- The function `getProcessFlowSteps(current)` run after the host calls `calls`: what
it returns, and the host calls made once it has returned. -/
def getProcessFlowStepsTraced (checkRecord : GlideRecord → JSString → Bool)
    (sysProcessFlow : JSString → List ProcessFlowRow)
    (current : Option GlideRecord) (calls : List HostCall) :
    Option (List GlideChoice) × List HostCall :=
  match current with
  | none => (none, calls)
  | some current =>
    if !current.isValidRecord then (none, calls)
    else
      let tableName := current.sys_class_name
      let pfGr := sysProcessFlow tableName
      if pfGr.isEmpty then (none, calls)
      else
        let final := whileLoopTraced checkRecord current pfGr
          { choices := [], foundCurrentStep := false, reachedEndStep := false } calls
        (some final.1.choices, final.2)

/-- The conditions handed to `GlideFilter.checkRecord`, in the order of the calls. -/
def checkedConditions (calls : List HostCall) : List JSString :=
  calls.filterMap (fun call =>
    match call with
    | HostCall.checkRecord condition => some condition
    | HostCall.error _ => none)

/-- What a step shows apart from its colour: value, label and state. -/
def stepView (c : GlideChoice) : JSString × JSString × StepState := (c.name, c.label, c.state)

/-- What a row holds apart from its colour. -/
def rowView (d : ProcessFlowRow) : JSString × JSString × JSString × Bool :=
  (d.name, d.label, d.condition, d.u_end_step)

/-- Row `C`, not an end step: matches, no colour. -/
def rowCOpen : ProcessFlowRow :=
  { name := "C".toList, label := "Step C".toList, condition := "TRUE".toList,
    u_color := none, u_end_step := false }

/-- The scenario of the specification: `A` (no match), `B` (match, end step, colour
`#0f0`), `C` (match, not an end step). -/
def exScenario : List ProcessFlowRow := [rowA, rowBEnd, rowCOpen]

/-- Rows in which an end step that matches comes after the first match: `B` (match,
not an end step), `C` (match, end step), `A`. -/
def exRowsLate : List ProcessFlowRow := [rowBOpen, rowC, rowA]

/-- Row `B` with a colour that cannot be parsed. -/
def rowBBad : ProcessFlowRow :=
  { name := "B".toList, label := "Step B".toList, condition := "TRUE".toList,
    u_color := some "not-a-color".toList, u_end_step := false }

/-- Rows whose first match has a colour that cannot be parsed. -/
def exRowsBad : List ProcessFlowRow := [rowA, rowBBad, rowC]

/-! ## `getProcessFlowSteps` on the objects of the host

The same code once more, now run on the objects it creates and uses: a `RegExp`
object keeps a `lastIndex` that `exec` reads and writes, and a `GlideRecord` keeps
the position of its cursor, which `hasNext()` and `next()` read and `next()`
moves.  The objects live in the host: a reference to an object is its index in
the host, objects are never removed, and the objects that a call leaves behind
are there when the next call starts. -/

/-- A `RegExp` object with the `g` flag: its pattern and its `lastIndex`. -/
structure RegExpObject where
  pattern : Regex
  lastIndex : Nat

/-- A `GlideRecord` after `query()`: the rows found, in order, and how many of them
`next()` has stepped onto. -/
structure GlideCursor where
  rows : List ProcessFlowRow
  position : Nat

/-- The state of the host: the `RegExp` objects and the `GlideRecord` cursors created
so far, and the host calls made so far. -/
structure Host where
  regExps : List RegExpObject
  cursors : List GlideCursor
  calls : List HostCall

/-- Evaluating a regular expression literal `/.../g`: a new object with `lastIndex` 0;
the reference to it and the host that holds it. -/
def Host.newRegExp (h : Host) (pattern : Regex) : Nat × Host :=
  (h.regExps.length,
    { h with regExps := h.regExps ++ [{ pattern := pattern, lastIndex := 0 }] })

/-- The expression `new RegExp(re)` on a `RegExp` object `re`: a new object with the
pattern and flags of `re` and `lastIndex` 0. -/
def Host.copyRegExp (h : Host) (re : Nat) : Nat × Host :=
  match h.regExps[re]? with
  | some o => h.newRegExp o.pattern
  | none => (re, h)

/-- The call `re.exec(input)` on an object with the `g` flag.  The search starts at
`lastIndex`; the patterns here start with `^`, which matches at index 0 only, so a
search that starts further on finds nothing.  A match ends at the end of the input
(`$`) and sets `lastIndex` to it; a search that finds nothing sets `lastIndex` to 0. -/
def Host.exec (h : Host) (re : Nat) (input : JSString) : Option (List JSString) × Host :=
  match h.regExps[re]? with
  | none => (none, h)
  | some o =>
    let result := if o.lastIndex = 0 then o.pattern.exec input else none
    let lastIndex :=
      match result with
      | some _ => input.length
      | none => 0
    (result, { h with regExps := h.regExps.set re { o with lastIndex := lastIndex } })

/-- The statements `new GlideRecord('sys_process_flow')`, `addEncodedQuery`, `orderBy`
and `query()`: a new cursor before the first of the rows found. -/
def Host.query (h : Host) (rows : List ProcessFlowRow) : Nat × Host :=
  (h.cursors.length, { h with cursors := h.cursors ++ [{ rows := rows, position := 0 }] })

/-- The call `gr.hasNext()`. -/
def Host.hasNext (h : Host) (gr : Nat) : Bool :=
  match h.cursors[gr]? with
  | some c => decide (c.position < c.rows.length)
  | none => false

/-- The call `gr.next()`: the row the cursor steps onto, `none` when it returns `false`
because no row is left. -/
def Host.next (h : Host) (gr : Nat) : Option ProcessFlowRow × Host :=
  match h.cursors[gr]? with
  | none => (none, h)
  | some c =>
    match c.rows[c.position]? with
    | none => (none, h)
    | some row =>
      (some row,
        { h with cursors := h.cursors.set gr { c with position := c.position + 1 } })

/-- The three statements `const re = /.../g; const regex = new RegExp(re);
regex.exec(input)`: the literal creates an object, `new RegExp` a second one, and
`exec` runs on the second. -/
def Host.execNew (h : Host) (pattern : Regex) (input : JSString) :
    Option (List JSString) × Host :=
  let literal := h.newRegExp pattern
  let regex := literal.2.copyRegExp literal.1
  regex.2.exec regex.1 input

/-- The function `_parseColor(input)` on the host. -/
def _parseColorHost (h : Host) (input : JSString) : Option (List JSNum) × Host :=
  let rgbaMatches := h.execNew rgbaExp input
  match rgbaMatches.1.filter (fun m => m.length == 4) with
  | some m => (some ((m.drop 1).map (fun nStr => parseInt nStr 10)), rgbaMatches.2)
  | none =>
    let hexMatches := rgbaMatches.2.execNew hexExp input
    match hexMatches.1 with
    | some (m0 :: _) =>
      let hexString := dropHash m0
      let notLength : Bool := hexString.length == 0
      let hexString :=
        if (if notLength then 1 else 0) = 6 then
          (hexString.map (fun s => ['0', s])).flatten
        else hexString
      (some ([slice hexString 0 2, slice hexString 2 4, slice hexString 4 6].map
        (fun hexStr => parseInt hexStr 16)), hexMatches.2)
    | _ => (none, hexMatches.2)

/-- The body of the `while` loop on the host, for the row `pfGr` the cursor is on. -/
def loopBodyHost (checkRecord : GlideRecord → JSString → Bool) (current : GlideRecord)
    (h : Host) (st : LoopState) (pfGr : ProcessFlowRow) : LoopState × Host :=
  let choice : GlideChoice :=
    { name := pfGr.name, label := pfGr.label, state := StepState.past, rgb_triplet := none }
  let conditionsMatch := checkRecord current pfGr.condition
  let h := { h with calls := h.calls ++ [HostCall.checkRecord pfGr.condition] }
  if !st.foundCurrentStep && conditionsMatch then
    let choice := { choice with state := StepState.current }
    let colored : GlideChoice × Host :=
      if !nilString pfGr.u_color then
        let parsed := _parseColorHost h (pfGr.u_color.getD [])
        let failed : Host :=
          { parsed.2 with calls := parsed.2.calls ++ [HostCall.error (pfGr.u_color.getD [])] }
        match parsed.1 with
        | some parsedColorArray =>
          if parsedColorArray.length = 3 then
            ({ choice with rgb_triplet := some parsedColorArray }, parsed.2)
          else (choice, failed)
        | none => (choice, failed)
      else (choice, h)
    ({ choices := st.choices ++ [colored.1]
       foundCurrentStep := true
       reachedEndStep := st.reachedEndStep || pfGr.u_end_step }, colored.2)
  else if st.foundCurrentStep then
    ({ st with choices := st.choices ++ [{ choice with state := StepState.future }] }, h)
  else
    ({ st with choices := st.choices ++ [choice] }, h)

/-- The loop `while (pfGr.next() && !reachedEndStep)` on the cursor `pfGr` of the host:
`next()` is called first, then `reachedEndStep` is tested.  The loop ends when `next()`
finds no row, so it runs at most once per row found; `fuel` bounds the number of
calls of `next()`. -/
def whileLoopHost (checkRecord : GlideRecord → JSString → Bool) (current : GlideRecord)
    (pfGr : Nat) : Nat → Host → LoopState → LoopState × Host
  | 0, h, st => (st, h)
  | fuel + 1, h, st =>
    match (h.next pfGr).1 with
    | none => (st, (h.next pfGr).2)
    | some row =>
      if st.reachedEndStep then (st, (h.next pfGr).2)
      else
        whileLoopHost checkRecord current pfGr fuel
          (loopBodyHost checkRecord current (h.next pfGr).2 st row).2
          (loopBodyHost checkRecord current (h.next pfGr).2 st row).1

/-- The function `getProcessFlowSteps(current)` run in the host `h`: what it returns and
the host it leaves.  One call of `next()` per row and one that finds none are
enough, hence the fuel. -/
def getProcessFlowStepsHost (checkRecord : GlideRecord → JSString → Bool)
    (sysProcessFlow : JSString → List ProcessFlowRow)
    (current : Option GlideRecord) (h : Host) : Option (List GlideChoice) × Host :=
  match current with
  | none => (none, h)
  | some current =>
    if !current.isValidRecord then (none, h)
    else
      let tableName := current.sys_class_name
      let pfGr := h.query (sysProcessFlow tableName)
      if !(pfGr.2.hasNext pfGr.1) then (none, pfGr.2)
      else
        let final := whileLoopHost checkRecord current pfGr.1
          ((sysProcessFlow tableName).length + 1) pfGr.2
          { choices := [], foundCurrentStep := false, reachedEndStep := false }
        (some final.1.choices, final.2)

/-- A host in which nothing has been created or called yet. -/
def emptyHost : Host := { regExps := [], cursors := [], calls := [] }

/-! ## Lemmas on the loop -/

theorem loopBody_noMatch (checkRecord : GlideRecord → JSString → Bool) (current : GlideRecord)
    (st : LoopState) (d : ProcessFlowRow) (hf : st.foundCurrentStep = false)
    (hm : checkRecord current d.condition = false) :
    loopBody checkRecord current st d = { st with choices := st.choices ++ [pastChoice d] } := by
  simp [loopBody, hf, hm, pastChoice]

theorem loopBody_found (checkRecord : GlideRecord → JSString → Bool) (current : GlideRecord)
    (st : LoopState) (d : ProcessFlowRow) (hf : st.foundCurrentStep = true) :
    loopBody checkRecord current st d = { st with choices := st.choices ++ [futureChoice d] } := by
  simp [loopBody, hf, futureChoice]

theorem loopBody_match (checkRecord : GlideRecord → JSString → Bool) (current : GlideRecord)
    (st : LoopState) (d : ProcessFlowRow) (hf : st.foundCurrentStep = false)
    (hm : checkRecord current d.condition = true) :
    loopBody checkRecord current st d =
      { choices := st.choices ++ [currentChoice d], foundCurrentStep := true,
        reachedEndStep := st.reachedEndStep || d.u_end_step } := by
  simp only [loopBody, hf, hm, currentChoice, currentTriplet]
  cases hn : nilString d.u_color with
  | true => simp
  | false =>
    cases hp : _parseColor (d.u_color.getD []) with
    | none => simp
    | some arr => by_cases hl : arr.length = 3 <;> simp [hl]

theorem whileLoop_reached (checkRecord : GlideRecord → JSString → Bool) (current : GlideRecord)
    (rows : List ProcessFlowRow) (st : LoopState) (hr : st.reachedEndStep = true) :
    whileLoop checkRecord current rows st = st := by
  cases rows with
  | nil => rfl
  | cons d rest => simp [whileLoop, hr]

theorem whileLoop_found (checkRecord : GlideRecord → JSString → Bool) (current : GlideRecord)
    (rows : List ProcessFlowRow) :
    ∀ st : LoopState, st.foundCurrentStep = true → st.reachedEndStep = false →
      whileLoop checkRecord current rows st =
        { st with choices := st.choices ++ rows.map futureChoice } := by
  induction rows with
  | nil => intro st _ _; simp [whileLoop]
  | cons d rest ih =>
    intro st hf hr
    rw [whileLoop, if_neg (by simp [hr]), loopBody_found _ _ _ _ hf,
      ih { st with choices := st.choices ++ [futureChoice d] } hf hr]
    simp

theorem whileLoop_noMatch (checkRecord : GlideRecord → JSString → Bool) (current : GlideRecord)
    (rows : List ProcessFlowRow)
    (hno : ∀ d ∈ rows, checkRecord current d.condition = false) :
    ∀ st : LoopState, st.foundCurrentStep = false → st.reachedEndStep = false →
      whileLoop checkRecord current rows st =
        { st with choices := st.choices ++ rows.map pastChoice } := by
  induction rows with
  | nil => intro st _ _; simp [whileLoop]
  | cons d rest ih =>
    intro st hf hr
    have hd : checkRecord current d.condition = false := hno d (List.mem_cons_self _ _)
    have hrest : ∀ x ∈ rest, checkRecord current x.condition = false :=
      fun x hx => hno x (List.mem_cons_of_mem _ hx)
    rw [whileLoop, if_neg (by simp [hr]), loopBody_noMatch _ _ _ _ hf hd,
      ih hrest { st with choices := st.choices ++ [pastChoice d] } hf hr]
    simp

/-- The choices after the loop when `d` is the first row that matches. -/
theorem whileLoop_match (checkRecord : GlideRecord → JSString → Bool) (current : GlideRecord)
    (pre post : List ProcessFlowRow) (d : ProcessFlowRow)
    (hno : ∀ x ∈ pre, checkRecord current x.condition = false)
    (hm : checkRecord current d.condition = true) :
    (whileLoop checkRecord current (pre ++ d :: post) initState).choices =
      pre.map pastChoice ++ currentChoice d ::
        (if d.u_end_step then [] else post.map futureChoice) := by
  have hsplit : ∀ (xs ys : List ProcessFlowRow) (st : LoopState),
      (∀ x ∈ xs, checkRecord current x.condition = false) →
      st.foundCurrentStep = false → st.reachedEndStep = false →
      whileLoop checkRecord current (xs ++ ys) st =
        whileLoop checkRecord current ys { st with choices := st.choices ++ xs.map pastChoice } := by
    intro xs
    induction xs with
    | nil => intro ys st _ _ _; simp
    | cons x xs ih =>
      intro ys st hxs hf hr
      have hx : checkRecord current x.condition = false := hxs x (List.mem_cons_self _ _)
      have hrest : ∀ y ∈ xs, checkRecord current y.condition = false :=
        fun y hy => hxs y (List.mem_cons_of_mem _ hy)
      rw [List.cons_append, whileLoop, if_neg (by simp [hr]), loopBody_noMatch _ _ _ _ hf hx,
        ih ys { st with choices := st.choices ++ [pastChoice x] } hrest hf hr]
      simp
  rw [hsplit pre (d :: post) initState hno rfl rfl, whileLoop, if_neg (by simp [initState]),
    loopBody_match _ _ _ _ rfl hm]
  cases he : d.u_end_step with
  | true => rw [whileLoop_reached _ _ _ _ (by simp [initState])]; simp [initState]
  | false => rw [whileLoop_found _ _ _ _ rfl (by simp [initState])]; simp [initState]

/-- Every list of rows either has no matching row or splits at its first matching row. -/
theorem firstMatch_split (checkRecord : GlideRecord → JSString → Bool) (current : GlideRecord)
    (rows : List ProcessFlowRow) :
    (∀ d ∈ rows, checkRecord current d.condition = false) ∨
    ∃ pre d post, rows = pre ++ d :: post ∧
      (∀ x ∈ pre, checkRecord current x.condition = false) ∧
      checkRecord current d.condition = true := by
  induction rows with
  | nil => left; simp
  | cons x xs ih =>
    cases hx : checkRecord current x.condition with
    | true => right; exact ⟨[], x, xs, rfl, by simp, hx⟩
    | false =>
      rcases ih with h | ⟨pre, d, post, he, hp, hd⟩
      · left
        intro y hy
        rcases List.mem_cons.mp hy with rfl | h'
        · exact hx
        · exact h y h'
      · right
        refine ⟨x :: pre, d, post, by simp [he], ?_, hd⟩
        intro y hy
        rcases List.mem_cons.mp hy with rfl | h'
        · exact hx
        · exact hp y h'

/-- The output for a valid record whose rows split at the first matching row `d`. -/
theorem getProcessFlowSteps_match (checkRecord : GlideRecord → JSString → Bool)
    (sysProcessFlow : JSString → List ProcessFlowRow) (current : GlideRecord)
    (pre post : List ProcessFlowRow) (d : ProcessFlowRow)
    (hv : current.isValidRecord = true)
    (hrows : sysProcessFlow current.sys_class_name = pre ++ d :: post)
    (hno : ∀ x ∈ pre, checkRecord current x.condition = false)
    (hm : checkRecord current d.condition = true) :
    getProcessFlowSteps checkRecord sysProcessFlow (some current) =
      some (pre.map pastChoice ++ currentChoice d ::
        (if d.u_end_step then [] else post.map futureChoice)) := by
  have h := whileLoop_match checkRecord current pre post d hno hm
  simp only [getProcessFlowSteps, hv, hrows]
  simpa [initState] using h

/-- The output for a valid record with at least one row, none of which matches. -/
theorem getProcessFlowSteps_noMatch (checkRecord : GlideRecord → JSString → Bool)
    (sysProcessFlow : JSString → List ProcessFlowRow) (current : GlideRecord)
    (hv : current.isValidRecord = true)
    (hne : sysProcessFlow current.sys_class_name ≠ [])
    (hno : ∀ x ∈ sysProcessFlow current.sys_class_name,
      checkRecord current x.condition = false) :
    getProcessFlowSteps checkRecord sysProcessFlow (some current) =
      some ((sysProcessFlow current.sys_class_name).map pastChoice) := by
  have h := whileLoop_noMatch checkRecord current _ hno initState rfl rfl
  simp only [getProcessFlowSteps, hv]
  simp [hne, initState] at h ⊢
  rw [h]

/-- The element of `A ++ x :: B` at index `A.length` is `x`. -/
theorem getElem?_append_cons_self {α : Type} (A B : List α) (x : α) :
    (A ++ x :: B)[A.length]? = some x := by
  rw [List.getElem?_append_right (Nat.le_refl _), Nat.sub_self]
  exact List.getElem?_cons_zero

/-- Where an element of `A ++ x :: B` found at index `i` comes from. -/
theorem getElem?_append_cons_cases {α : Type} (A B : List α) (x c : α) (i : Nat)
    (h : (A ++ x :: B)[i]? = some c) :
    (i < A.length ∧ c ∈ A) ∨ (i = A.length ∧ c = x) ∨ (A.length < i ∧ c ∈ B) := by
  rcases Nat.lt_trichotomy i A.length with hlt | heq | hgt
  · left
    rw [List.getElem?_append_left hlt] at h
    exact ⟨hlt, List.getElem?_mem h⟩
  · right; left
    subst heq
    rw [getElem?_append_cons_self] at h
    exact ⟨rfl, (Option.some.inj h).symm⟩
  · right; right
    rw [List.getElem?_append_right (Nat.le_of_lt hgt)] at h
    obtain ⟨k, hk⟩ : ∃ k, i - A.length = k + 1 := ⟨i - A.length - 1, by omega⟩
    rw [hk, List.getElem?_cons_succ] at h
    exact ⟨hgt, List.getElem?_mem h⟩

/-! ## Lemmas on the character classes and on `many1` -/

theorem isSep_iff (c : Char) : isSep c = true ↔ c = ',' ∨ c = ' ' := by
  simp [isSep]

theorem isAlphaSep_iff (c : Char) : isAlphaSep c = true ↔ c = ',' ∨ c = ' ' ∨ c = '/' := by
  simp [isAlphaSep, or_assoc]

theorem isAlphaChar_iff (c : Char) :
    isAlphaChar c = true ↔ isDigit c = true ∨ c = '.' ∨ c = '%' := by
  simp [isAlphaChar, or_assoc]

theorem isDigit_of_isSep {c : Char} (h : isSep c = true) : isDigit c = false := by
  rcases (isSep_iff c).mp h with rfl | rfl <;> decide

theorem isSep_of_isDigit {c : Char} (h : isDigit c = true) : isSep c = false := by
  cases hs : isSep c with
  | false => rfl
  | true => rw [isDigit_of_isSep hs] at h; cases h

theorem isDigit_of_isAlphaSep {c : Char} (h : isAlphaSep c = true) : isDigit c = false := by
  rcases (isAlphaSep_iff c).mp h with rfl | rfl | rfl <;> decide

theorem isAlphaSep_of_isDigit {c : Char} (h : isDigit c = true) : isAlphaSep c = false := by
  cases hs : isAlphaSep c with
  | false => rfl
  | true => rw [isDigit_of_isAlphaSep hs] at h; cases h

theorem isAlphaChar_of_isAlphaSep {c : Char} (h : isAlphaSep c = true) :
    isAlphaChar c = false := by
  rcases (isAlphaSep_iff c).mp h with rfl | rfl | rfl <;> decide

theorem isAlphaSep_of_isAlphaChar {c : Char} (h : isAlphaChar c = true) :
    isAlphaSep c = false := by
  cases hs : isAlphaSep c with
  | false => rfl
  | true => rw [isAlphaChar_of_isAlphaSep hs] at h; cases h

theorem notHead_nil (p : Char → Bool) : NotHead p [] := trivial

theorem notHead_cons {p : Char → Bool} {c : Char} (t : JSString) (h : p c = false) :
    NotHead p (c :: t) := h

/-- A non-empty run of characters of a class `q` disjoint from `p` does not start
with a character of `p`. -/
theorem notHead_append {p q : Char → Bool} (xs rest : JSString) (hne : xs ≠ [])
    (hq : ∀ c ∈ xs, q c = true) (hpq : ∀ c, q c = true → p c = false) :
    NotHead p (xs ++ rest) := by
  cases xs with
  | nil => exact absurd rfl hne
  | cons c t => exact hpq c (hq c (List.mem_cons_self _ _))

theorem takeWhile_append_notHead (p : Char → Bool) (xs rest : JSString)
    (hxs : ∀ c ∈ xs, p c = true) (hr : NotHead p rest) :
    (xs ++ rest).takeWhile p = xs := by
  induction xs with
  | nil =>
    cases rest with
    | nil => rfl
    | cons c t => simp [List.takeWhile, show p c = false from hr]
  | cons x xs ih =>
    have hx : p x = true := hxs x (List.mem_cons_self _ _)
    simp [List.takeWhile, hx, ih (fun c hc => hxs c (List.mem_cons_of_mem _ hc))]

theorem dropWhile_append_notHead (p : Char → Bool) (xs rest : JSString)
    (hxs : ∀ c ∈ xs, p c = true) (hr : NotHead p rest) :
    (xs ++ rest).dropWhile p = rest := by
  induction xs with
  | nil =>
    cases rest with
    | nil => rfl
    | cons c t => simp [List.dropWhile, show p c = false from hr]
  | cons x xs ih =>
    have hx : p x = true := hxs x (List.mem_cons_self _ _)
    simp [List.dropWhile, hx, ih (fun c hc => hxs c (List.mem_cons_of_mem _ hc))]

/-- The greedy match of a non-empty run followed by something outside the class. -/
theorem many1_append (p : Char → Bool) (xs rest : JSString) (hne : xs ≠ [])
    (hxs : ∀ c ∈ xs, p c = true) (hr : NotHead p rest) :
    many1 p (xs ++ rest) = some (xs, rest) := by
  unfold many1
  rw [takeWhile_append_notHead p xs rest hxs hr, dropWhile_append_notHead p xs rest hxs hr]
  cases xs with
  | nil => exact absurd rfl hne
  | cons c t => rfl

theorem notHead_dropWhile (p : Char → Bool) (s : JSString) : NotHead p (s.dropWhile p) := by
  induction s with
  | nil => trivial
  | cons c t ih =>
    cases hc : p c with
    | true => simpa [List.dropWhile, hc] using ih
    | false => simp [List.dropWhile, hc, NotHead]

/-- What a successful `many1` says about its input. -/
theorem many1_some {p : Char → Bool} {s m rest : JSString} (h : many1 p s = some (m, rest)) :
    s = m ++ rest ∧ m ≠ [] ∧ (∀ c ∈ m, p c = true) ∧ NotHead p rest := by
  unfold many1 at h
  split at h
  · cases h
  · rename_i hne
    simp only [Option.some.injEq, Prod.mk.injEq] at h
    obtain ⟨hm, hrest⟩ := h
    subst hm hrest
    refine ⟨(List.takeWhile_append_dropWhile p s).symm, ?_, ?_, notHead_dropWhile p s⟩
    · intro he; exact hne he
    · intro c hc; exact List.mem_takeWhile_imp hc

/-- A failed `many1`: the input does not start with a character of the class. -/
theorem many1_none {p : Char → Bool} {s : JSString} (h : many1 p s = none) : NotHead p s := by
  unfold many1 at h
  split at h
  · rename_i he
    cases s with
    | nil => trivial
    | cons c t =>
      cases hc : p c with
      | false => exact hc
      | true => simp [List.takeWhile, hc] at he
  · cases h

/-! ## Lemmas on the two patterns -/

theorem rgbaPrefix_rgb (s : JSString) : rgbaPrefix ("rgb(".toList ++ s) = some s := rfl

theorem rgbaPrefix_rgba (s : JSString) : rgbaPrefix ("rgba(".toList ++ s) = some s := rfl

theorem rgbaPrefix_some {input s : JSString} (h : rgbaPrefix input = some s) :
    input = "rgb(".toList ++ s ∨ input = "rgba(".toList ++ s := by
  unfold rgbaPrefix at h
  split at h
  · left; cases h; rfl
  · right; cases h; rfl
  · cases h

/-- The tail after the third channel, with the closing bracket, does not start with
a digit. -/
theorem notHead_isDigit_tail {tail : JSString} (ht : AlphaTail tail) :
    NotHead isDigit (tail ++ [')']) := by
  rcases ht with rfl | ⟨sep, alpha, hsep, _, rfl⟩
  · exact notHead_cons _ (by decide)
  · rw [List.append_assoc]
    exact notHead_append sep _ hsep.1 hsep.2 (fun c hc => isDigit_of_isAlphaSep hc)

/-- The first pattern matches every string of the functional notation, and its
capture groups are the three channels. -/
theorem rgbaExec_functional (pre r s1 g s2 b tail : JSString)
    (hpre : pre = "rgb(".toList ∨ pre = "rgba(".toList)
    (hr : Run isDigit r) (hs1 : Run isSep s1) (hg : Run isDigit g) (hs2 : Run isSep s2)
    (hb : Run isDigit b) (ht : AlphaTail tail) :
    rgbaExec (pre ++ r ++ s1 ++ g ++ s2 ++ b ++ tail ++ ")".toList) = some (r, g, b) := by
  have hp : rgbaPrefix (pre ++ (r ++ (s1 ++ (g ++ (s2 ++ (b ++ (tail ++ [')']))))))) =
      some (r ++ (s1 ++ (g ++ (s2 ++ (b ++ (tail ++ [')'])))))) := by
    rcases hpre with rfl | rfl
    · exact rgbaPrefix_rgb _
    · exact rgbaPrefix_rgba _
  have h1 := many1_append isDigit r (s1 ++ (g ++ (s2 ++ (b ++ (tail ++ [')']))))) hr.1 hr.2
    (notHead_append s1 _ hs1.1 hs1.2 (fun c hc => isDigit_of_isSep hc))
  have h2 := many1_append isSep s1 (g ++ (s2 ++ (b ++ (tail ++ [')'])))) hs1.1 hs1.2
    (notHead_append g _ hg.1 hg.2 (fun c hc => isSep_of_isDigit hc))
  have h3 := many1_append isDigit g (s2 ++ (b ++ (tail ++ [')']))) hg.1 hg.2
    (notHead_append s2 _ hs2.1 hs2.2 (fun c hc => isDigit_of_isSep hc))
  have h4 := many1_append isSep s2 (b ++ (tail ++ [')'])) hs2.1 hs2.2
    (notHead_append b _ hb.1 hb.2 (fun c hc => isSep_of_isDigit hc))
  have h5 := many1_append isDigit b (tail ++ [')']) hb.1 hb.2 (notHead_isDigit_tail ht)
  have hstr : pre ++ r ++ s1 ++ g ++ s2 ++ b ++ tail ++ ")".toList =
      pre ++ (r ++ (s1 ++ (g ++ (s2 ++ (b ++ (tail ++ [')'])))))) := by
    simp [List.append_assoc]
  rw [hstr]
  unfold rgbaExec
  simp only [hp, h1, h2, h3, h4, h5]
  rcases ht with rfl | ⟨sep, alpha, hsep, halpha, rfl⟩
  · simp
  · have hne : sep ++ alpha ++ [')'] ≠ [')'] := by
      intro he
      obtain ⟨hsne, hsall⟩ := hsep
      cases sep with
      | nil => exact hsne rfl
      | cons c t =>
        have hc : c = ')' := by
          have := congrArg List.head? he
          simpa using this
        have := hsall c (List.mem_cons_self _ _)
        rw [hc] at this
        exact absurd this (by decide)
    have h6 := many1_append isAlphaSep sep (alpha ++ [')']) hsep.1 hsep.2
      (notHead_append alpha _ halpha.1 halpha.2 (fun c hc => isAlphaSep_of_isAlphaChar hc))
    have h7 := many1_append isAlphaChar alpha [')'] halpha.1 halpha.2
      (notHead_cons _ (by decide))
    rw [if_neg hne, List.append_assoc, h6]
    simp only [h7]
    simp

/-- The first pattern matches only strings of the functional notation. -/
theorem rgbaExec_some {input r g b : JSString} (h : rgbaExec input = some (r, g, b)) :
    ∃ pre s1 s2 tail,
      (pre = "rgb(".toList ∨ pre = "rgba(".toList) ∧
      Run isDigit r ∧ Run isSep s1 ∧ Run isDigit g ∧ Run isSep s2 ∧ Run isDigit b ∧
      AlphaTail tail ∧
      input = pre ++ r ++ s1 ++ g ++ s2 ++ b ++ tail ++ ")".toList := by
  unfold rgbaExec at h
  cases hp : rgbaPrefix input with
  | none => simp [hp] at h
  | some t2 =>
  cases h1 : many1 isDigit t2 with
  | none => simp [hp, h1] at h
  | some x1 =>
  obtain ⟨r', t3⟩ := x1
  cases h2 : many1 isSep t3 with
  | none => simp [hp, h1, h2] at h
  | some x2 =>
  obtain ⟨s1, t4⟩ := x2
  cases h3 : many1 isDigit t4 with
  | none => simp [hp, h1, h2, h3] at h
  | some x3 =>
  obtain ⟨g', t5⟩ := x3
  cases h4 : many1 isSep t5 with
  | none => simp [hp, h1, h2, h3, h4] at h
  | some x4 =>
  obtain ⟨s2, t6⟩ := x4
  cases h5 : many1 isDigit t6 with
  | none => simp [hp, h1, h2, h3, h4, h5] at h
  | some x5 =>
  obtain ⟨b', t7⟩ := x5
  simp only [hp, h1, h2, h3, h4, h5] at h
  obtain ⟨e1, n1, a1, _⟩ := many1_some h1
  obtain ⟨e2, n2, a2, _⟩ := many1_some h2
  obtain ⟨e3, n3, a3, _⟩ := many1_some h3
  obtain ⟨e4, n4, a4, _⟩ := many1_some h4
  obtain ⟨e5, n5, a5, _⟩ := many1_some h5
  have hinput : ∃ pre, (pre = "rgb(".toList ∨ pre = "rgba(".toList) ∧ input = pre ++ t2 := by
    rcases rgbaPrefix_some hp with hi | hi
    · exact ⟨_, Or.inl rfl, hi⟩
    · exact ⟨_, Or.inr rfl, hi⟩
  obtain ⟨pre, hpre, hin⟩ := hinput
  by_cases h7 : t7 = [')']
  · rw [if_pos h7] at h
    simp only [Option.some.injEq, Prod.mk.injEq] at h
    obtain ⟨rfl, rfl, rfl⟩ := h
    refine ⟨pre, s1, s2, [], hpre, ⟨n1, a1⟩, ⟨n2, a2⟩, ⟨n3, a3⟩, ⟨n4, a4⟩, ⟨n5, a5⟩,
      Or.inl rfl, ?_⟩
    rw [hin, e1, e2, e3, e4, e5, h7]
    simp [List.append_assoc]
  · rw [if_neg h7] at h
    cases h6 : many1 isAlphaSep t7 with
    | none => simp [h6] at h
    | some x6 =>
    obtain ⟨sep, t8⟩ := x6
    cases h8 : many1 isAlphaChar t8 with
    | none => simp [h6, h8] at h
    | some x8 =>
    obtain ⟨alpha, t9⟩ := x8
    simp only [h6, h8] at h
    obtain ⟨e6, n6, a6, _⟩ := many1_some h6
    obtain ⟨e8, n8, a8, _⟩ := many1_some h8
    by_cases h9 : t9 = [')']
    · rw [if_pos h9] at h
      simp only [Option.some.injEq, Prod.mk.injEq] at h
      obtain ⟨rfl, rfl, rfl⟩ := h
      refine ⟨pre, s1, s2, sep ++ alpha, hpre, ⟨n1, a1⟩, ⟨n2, a2⟩, ⟨n3, a3⟩, ⟨n4, a4⟩,
        ⟨n5, a5⟩, Or.inr ⟨sep, alpha, ⟨n6, a6⟩, ⟨n8, a8⟩, rfl⟩, ?_⟩
      rw [hin, e1, e2, e3, e4, e5, e6, e8, h9]
      simp [List.append_assoc]
    · rw [if_neg h9] at h
      cases h

theorem hexExec_some {input m0 : JSString} (h : hexExec input = some m0) :
    m0 = input ∧ SpecHex input := by
  unfold hexExec at h
  split at h
  · rename_i ds
    split at h
    · rename_i hc
      cases h
      refine ⟨rfl, ds, rfl, hc.1, ?_⟩
      intro c hcm
      exact List.all_eq_true.mp hc.2 c hcm
    · cases h
  · cases h

theorem hexExec_hex (ds : JSString) (hlen : ds.length = 3 ∨ ds.length = 6)
    (hds : ∀ c ∈ ds, isHexDigit c = true) : hexExec ('#' :: ds) = some ('#' :: ds) := by
  have hall : ds.all isHexDigit = true := List.all_eq_true.mpr hds
  simp [hexExec, hlen, hall]

/-- A string that starts with `#` is not matched by the first pattern. -/
theorem rgbaExec_hash (ds : JSString) : rgbaExec ('#' :: ds) = none := by
  have hp : rgbaPrefix ('#' :: ds) = none := rfl
  simp [rgbaExec, hp]

/-! ## The matcher and the deterministic reading agree -/

theorem firstSome_none_right {β : Type} (a : Option β) : firstSome a none = a := by
  cases a <;> rfl

theorem many1_cons_false {p : Char → Bool} {c : Char} (t : JSString) (h : p c = false) :
    many1 p (c :: t) = none := by
  simp [many1, List.takeWhile, h]

theorem many1_cons_true {p : Char → Bool} {c : Char} (t : JSString) (h : p c = true) :
    many1 p (c :: t) = some (c :: t.takeWhile p, t.dropWhile p) := by
  simp [many1, List.takeWhile, List.dropWhile, h]

theorem many1_eq_some {p : Char → Bool} {s m rest : JSString}
    (h : many1 p s = some (m, rest)) : m = s.takeWhile p ∧ rest = s.dropWhile p := by
  unfold many1 at h
  split at h
  · cases h
  · simp only [Option.some.injEq, Prod.mk.injEq] at h
    exact ⟨h.1.symm, h.2.symm⟩

theorem take_length_sub_dropWhile (p : Char → Bool) (s : JSString) :
    s.take (s.length - (s.dropWhile p).length) = s.takeWhile p := by
  have h := List.takeWhile_append_dropWhile p s
  have hl : (s.takeWhile p).length + (s.dropWhile p).length = s.length := by
    have := congrArg List.length h
    rw [List.length_append] at this
    exact this
  have hn : s.length - (s.dropWhile p).length = (s.takeWhile p).length := by omega
  rw [hn]
  calc s.take (s.takeWhile p).length
      = (s.takeWhile p ++ s.dropWhile p).take (s.takeWhile p).length := by rw [h]
    _ = s.takeWhile p := List.take_left _ _

/-- When the continuation rejects every input that starts with a character of the
class, only the longest run can lead to a match. -/
theorem plusLoop_reject {β : Type} (p : Char → Bool) (k : JSString → Option β)
    (hk : ∀ c t, p c = true → k (c :: t) = none) (t : JSString) :
    plusLoop p t k = k (t.dropWhile p) := by
  induction t with
  | nil => rfl
  | cons c t ih =>
    cases hc : p c with
    | true => simp [plusLoop, hc, ih, hk c t hc, firstSome_none_right, List.dropWhile]
    | false => simp [plusLoop, hc, List.dropWhile]

theorem plus_run (p : Char → Bool) (s : JSString) (caps : List JSString)
    (k : JSString → List JSString → Option (List JSString))
    (hk : ∀ c t, p c = true → k (c :: t) caps = none) :
    (Regex.plus p).run s caps k =
      match many1 p s with
      | none => none
      | some (_, rest) => k rest caps := by
  cases s with
  | nil => rfl
  | cons x t =>
    cases hx : p x with
    | false => simp [Regex.run, hx, many1_cons_false t hx]
    | true =>
      rw [many1_cons_true t hx]
      simp only [Regex.run, hx, if_true]
      exact plusLoop_reject p (fun s' => k s' caps) hk t

theorem group_plus_run (p : Char → Bool) (s : JSString) (caps : List JSString)
    (k : JSString → List JSString → Option (List JSString))
    (hk : ∀ c t caps', p c = true → k (c :: t) caps' = none) :
    (Regex.group (Regex.plus p)).run s caps k =
      match many1 p s with
      | none => none
      | some (m, rest) => k rest (caps ++ [m]) := by
  have hrun : (Regex.group (Regex.plus p)).run s caps k =
      (Regex.plus p).run s caps
        (fun s' caps' => k s' (caps' ++ [s.take (s.length - s'.length)])) := rfl
  rw [hrun, plus_run p s caps
    (fun s' caps' => k s' (caps' ++ [s.take (s.length - s'.length)]))
    (fun c t hc => hk c t _ hc)]
  cases hm : many1 p s with
  | none => rfl
  | some x =>
    obtain ⟨m, rest⟩ := x
    obtain ⟨e1, e2⟩ := many1_eq_some hm
    simp only
    rw [e2, take_length_sub_dropWhile, e1]

theorem seq_run (a b : Regex) (s : JSString) (caps : List JSString)
    (k : JSString → List JSString → Option (List JSString)) :
    (Regex.seq a b).run s caps k = a.run s caps (fun s' caps' => b.run s' caps' k) := rfl

theorem lit_run_cons (c x : Char) (t : JSString) (caps : List JSString)
    (k : JSString → List JSString → Option (List JSString)) :
    (Regex.lit c).run (x :: t) caps k = if x = c then k t caps else none := rfl

theorem lit_run_nil (c : Char) (caps : List JSString)
    (k : JSString → List JSString → Option (List JSString)) :
    (Regex.lit c).run [] caps k = none := rfl

theorem rgbaExp_eq :
    rgbaExp = Regex.seq (Regex.lit 'r') (Regex.seq (Regex.lit 'g') (Regex.seq (Regex.lit 'b')
      (Regex.seq (Regex.opt (Regex.lit 'a')) (Regex.seq (Regex.lit '(') rgbaRed)))) := rfl

/-- The closing bracket and the end of the input. -/
theorem close_run (input s : JSString) (caps : List JSString) :
    (Regex.lit ')').run s caps (atEnd input) =
      if s = [')'] then some (input :: caps) else none := by
  cases s with
  | nil => rfl
  | cons x t =>
    rw [lit_run_cons]
    by_cases hx : x = ')'
    · subst hx
      cases t with
      | nil => rfl
      | cons y u => simp [atEnd]
    · simp [hx]

theorem rgbaTail_run (input s : JSString) (caps : List JSString) :
    rgbaTail.run s caps (atEnd input) =
      if s = [')'] then some (input :: caps)
      else
        match many1 isAlphaSep s with
        | none => none
        | some (_, s8) =>
        match many1 isAlphaChar s8 with
        | none => none
        | some (_, s9) => if s9 = [')'] then some (input :: caps) else none := by
  have hclose : ∀ s' caps', (Regex.lit ')').run s' caps' (atEnd input) =
      if s' = [')'] then some (input :: caps') else none := close_run input
  have hchar : ∀ s' caps', (Regex.plus isAlphaChar).run s' caps'
      (fun s'' caps'' => (Regex.lit ')').run s'' caps'' (atEnd input)) =
      match many1 isAlphaChar s' with
      | none => none
      | some (_, s9) => if s9 = [')'] then some (input :: caps') else none := by
    intro s' caps'
    rw [plus_run isAlphaChar s' caps' _ (by
      intro c t hc
      rw [hclose]
      have hne : c ≠ ')' := by
        intro he; subst he; exact absurd hc (by decide)
      simp [hne])]
    cases many1 isAlphaChar s' with
    | none => rfl
    | some x => simp only [hclose]
  have hgroup : (Regex.seq (Regex.plus isAlphaSep) (Regex.plus isAlphaChar)).run s caps
      (fun s' caps' => (Regex.lit ')').run s' caps' (atEnd input)) =
      match many1 isAlphaSep s with
      | none => none
      | some (_, s8) =>
      match many1 isAlphaChar s8 with
      | none => none
      | some (_, s9) => if s9 = [')'] then some (input :: caps) else none := by
    rw [seq_run, plus_run isAlphaSep s caps _ (by
      intro c t hc
      rw [hchar, many1_cons_false t (isAlphaChar_of_isAlphaSep hc)])]
    cases many1 isAlphaSep s with
    | none => rfl
    | some x => simp only [hchar]
  have hrun : rgbaTail.run s caps (atEnd input) =
      firstSome ((Regex.seq (Regex.plus isAlphaSep) (Regex.plus isAlphaChar)).run s caps
        (fun s' caps' => (Regex.lit ')').run s' caps' (atEnd input)))
        ((Regex.lit ')').run s caps (atEnd input)) := rfl
  rw [hrun, hgroup, hclose]
  by_cases hs : s = [')']
  · subst hs
    rw [if_pos rfl, if_pos rfl, many1_cons_false [] (by decide)]
    rfl
  · rw [if_neg hs, if_neg hs, firstSome_none_right]

theorem rgbaTail_reject (input : JSString) (c : Char) (t : JSString) (caps : List JSString)
    (hc : isDigit c = true) : rgbaTail.run (c :: t) caps (atEnd input) = none := by
  have hne : c :: t ≠ [')'] := by
    intro he
    have : c = ')' := (List.cons.inj he).1
    subst this
    exact absurd hc (by decide)
  rw [rgbaTail_run, if_neg hne, many1_cons_false t (isAlphaSep_of_isDigit hc)]

theorem rgbaBlue_run (input s : JSString) (caps : List JSString) :
    rgbaBlue.run s caps (atEnd input) =
      match many1 isDigit s with
      | none => none
      | some (b, s7) => rgbaTail.run s7 (caps ++ [b]) (atEnd input) := by
  have hrun : rgbaBlue.run s caps (atEnd input) =
      (Regex.group (Regex.plus isDigit)).run s caps
        (fun s' caps' => rgbaTail.run s' caps' (atEnd input)) := rfl
  rw [hrun, group_plus_run isDigit s caps _
    (fun c t caps' hc => rgbaTail_reject input c t caps' hc)]

/-- A channel followed by a separator and the rest of the pattern. -/
theorem channel_sep_run (rest : Regex) (input s : JSString) (caps : List JSString)
    (hrest : ∀ c t caps', isSep c = true → rest.run (c :: t) caps' (atEnd input) = none) :
    (Regex.seq (Regex.group (Regex.plus isDigit)) (Regex.seq (Regex.plus isSep) rest)).run
        s caps (atEnd input) =
      match many1 isDigit s with
      | none => none
      | some (r, s3) =>
      match many1 isSep s3 with
      | none => none
      | some (_, s4) => rest.run s4 (caps ++ [r]) (atEnd input) := by
  have hsep : ∀ s' caps', (Regex.seq (Regex.plus isSep) rest).run s' caps' (atEnd input) =
      match many1 isSep s' with
      | none => none
      | some (_, s4) => rest.run s4 caps' (atEnd input) := by
    intro s' caps'
    rw [seq_run, plus_run isSep s' caps' _ (fun c t hc => hrest c t caps' hc)]
  rw [seq_run, group_plus_run isDigit s caps _ (by
    intro c t caps' hc
    rw [hsep, many1_cons_false t (isSep_of_isDigit hc)])]
  cases many1 isDigit s with
  | none => rfl
  | some x => simp only [hsep]

theorem rgbaBlue_reject (input : JSString) (c : Char) (t : JSString) (caps : List JSString)
    (hc : isSep c = true) : rgbaBlue.run (c :: t) caps (atEnd input) = none := by
  rw [rgbaBlue_run, many1_cons_false t (isDigit_of_isSep hc)]

theorem rgbaGreen_run (input s : JSString) (caps : List JSString) :
    rgbaGreen.run s caps (atEnd input) =
      match many1 isDigit s with
      | none => none
      | some (g, s5) =>
      match many1 isSep s5 with
      | none => none
      | some (_, s6) => rgbaBlue.run s6 (caps ++ [g]) (atEnd input) :=
  channel_sep_run rgbaBlue input s caps (fun c t caps' hc => rgbaBlue_reject input c t caps' hc)

theorem rgbaGreen_reject (input : JSString) (c : Char) (t : JSString) (caps : List JSString)
    (hc : isSep c = true) : rgbaGreen.run (c :: t) caps (atEnd input) = none := by
  rw [rgbaGreen_run, many1_cons_false t (isDigit_of_isSep hc)]

theorem rgbaRed_run (input s : JSString) (caps : List JSString) :
    rgbaRed.run s caps (atEnd input) =
      match many1 isDigit s with
      | none => none
      | some (r, s3) =>
      match many1 isSep s3 with
      | none => none
      | some (_, s4) => rgbaGreen.run s4 (caps ++ [r]) (atEnd input) :=
  channel_sep_run rgbaGreen input s caps
    (fun c t caps' hc => rgbaGreen_reject input c t caps' hc)

/-- The start `^rgba?\(` of the pattern. -/
theorem rgbaExp_exec_start (input : JSString) :
    rgbaExp.exec input =
      match rgbaPrefix input with
      | none => none
      | some s2 => rgbaRed.run s2 [] (atEnd input) := by
  have hopen : ∀ (s : JSString),
      (Regex.seq (Regex.opt (Regex.lit 'a')) (Regex.seq (Regex.lit '(') rgbaRed)).run s []
        (atEnd input) =
      match s with
      | '(' :: t => rgbaRed.run t [] (atEnd input)
      | 'a' :: '(' :: t => rgbaRed.run t [] (atEnd input)
      | _ => none := by
    intro s
    have hrun : (Regex.seq (Regex.opt (Regex.lit 'a')) (Regex.seq (Regex.lit '(') rgbaRed)).run
        s [] (atEnd input) =
        firstSome
          ((Regex.lit 'a').run s []
            (fun s' caps' => (Regex.seq (Regex.lit '(') rgbaRed).run s' caps' (atEnd input)))
          ((Regex.seq (Regex.lit '(') rgbaRed).run s [] (atEnd input)) := rfl
    rw [hrun]
    split
    · simp [seq_run, lit_run_cons, firstSome]
    · simp [seq_run, lit_run_cons, firstSome_none_right]
    · rename_i h1 h2
      cases s with
      | nil => rfl
      | cons x t =>
        by_cases hx : x = '('
        · subst hx; exact absurd rfl (h1 t)
        · by_cases ha : x = 'a'
          · subst ha
            cases t with
            | nil => simp [seq_run, lit_run_cons, lit_run_nil, firstSome]
            | cons y u =>
              by_cases hy : y = '('
              · subst hy; exact absurd rfl (h2 u)
              · simp [seq_run, lit_run_cons, hy, firstSome]
          · simp [seq_run, lit_run_cons, hx, ha, firstSome]
  have hrgb : ∀ t3 : JSString, rgbaExp.exec input =
      (Regex.seq (Regex.opt (Regex.lit 'a')) (Regex.seq (Regex.lit '(') rgbaRed)).run t3 []
        (atEnd input) → input = 'r' :: 'g' :: 'b' :: t3 →
      rgbaExp.exec input =
        match rgbaPrefix input with
        | none => none
        | some s2 => rgbaRed.run s2 [] (atEnd input) := by
    intro t3 hexec hin
    rw [hexec, hopen t3]
    split
    · rename_i t
      have : rgbaPrefix input = some t := by rw [hin]; rfl
      rw [this]
    · rename_i t
      have : rgbaPrefix input = some t := by rw [hin]; rfl
      rw [this]
    · rename_i h1 h2
      cases hp : rgbaPrefix input with
      | none => rfl
      | some s2 =>
        exfalso
        rcases rgbaPrefix_some hp with hi | hi
        · rw [hin] at hi
          exact h1 s2 (by simpa using hi)
        · rw [hin] at hi
          exact h2 s2 (by simpa using hi)
  have hfail : rgbaExp.exec input = none → (∀ t3, input ≠ 'r' :: 'g' :: 'b' :: t3) →
      rgbaExp.exec input =
        match rgbaPrefix input with
        | none => none
        | some s2 => rgbaRed.run s2 [] (atEnd input) := by
    intro hexec hne
    rw [hexec]
    cases hp : rgbaPrefix input with
    | none => rfl
    | some s2 =>
      exfalso
      rcases rgbaPrefix_some hp with hi | hi
      · exact hne _ hi
      · exact hne _ hi
  rcases input with _ | ⟨c1, t1⟩
  · exact hfail rfl (fun _ h => by cases h)
  by_cases e1 : c1 = 'r'
  swap
  · refine hfail ?_ (fun _ h => e1 (List.cons.inj h).1)
    simp [Regex.exec, rgbaExp_eq, seq_run, lit_run_cons, e1]
  subst e1
  rcases t1 with _ | ⟨c2, t2⟩
  · exact hfail rfl (fun _ h => by cases h)
  by_cases e2 : c2 = 'g'
  swap
  · refine hfail ?_ (fun _ h => e2 (List.cons.inj (List.cons.inj h).2).1)
    simp [Regex.exec, rgbaExp_eq, seq_run, lit_run_cons, e2]
  subst e2
  rcases t2 with _ | ⟨c3, t3⟩
  · exact hfail rfl (fun _ h => by cases h)
  by_cases e3 : c3 = 'b'
  swap
  · refine hfail ?_ (fun _ h => e3 (List.cons.inj (List.cons.inj (List.cons.inj h).2).2).1)
    simp [Regex.exec, rgbaExp_eq, seq_run, lit_run_cons, e3]
  subst e3
  exact hrgb t3 rfl rfl

/-- The matcher on `rgbaExp` returns what the greedy reading returns. -/
theorem rgbaExp_exec (input : JSString) :
    rgbaExp.exec input =
      (rgbaExec input).map (fun m => [input, m.1, m.2.1, m.2.2]) := by
  rw [rgbaExp_exec_start]
  unfold rgbaExec
  cases rgbaPrefix input with
  | none => rfl
  | some s2 =>
  simp only [rgbaRed_run]
  cases many1 isDigit s2 with
  | none => rfl
  | some x1 =>
  obtain ⟨r, s3⟩ := x1
  simp only
  cases many1 isSep s3 with
  | none => rfl
  | some x2 =>
  obtain ⟨_, s4⟩ := x2
  simp only [rgbaGreen_run]
  cases many1 isDigit s4 with
  | none => rfl
  | some x3 =>
  obtain ⟨g, s5⟩ := x3
  simp only
  cases many1 isSep s5 with
  | none => rfl
  | some x4 =>
  obtain ⟨_, s6⟩ := x4
  simp only [rgbaBlue_run]
  cases many1 isDigit s6 with
  | none => rfl
  | some x5 =>
  obtain ⟨b, s7⟩ := x5
  simp only [rgbaTail_run]
  by_cases h7 : s7 = [')']
  · simp [h7]
  · simp only [if_neg h7]
    cases many1 isAlphaSep s7 with
    | none => rfl
    | some x6 =>
    obtain ⟨_, s8⟩ := x6
    simp only
    cases many1 isAlphaChar s8 with
    | none => rfl
    | some x7 =>
    obtain ⟨_, s9⟩ := x7
    simp only
    by_cases h9 : s9 = [')']
    · simp [h9]
    · simp [h9]

theorem timesLoop_atEnd (p : Char → Bool) (input : JSString) (caps : List JSString)
    (n : Nat) : ∀ s : JSString,
    timesLoop p n s (fun s' => atEnd input s' caps) =
      if s.length = n ∧ s.all p = true then some (input :: caps) else none := by
  induction n with
  | zero =>
    intro s
    cases s with
    | nil => simp [timesLoop, atEnd]
    | cons c t => simp [timesLoop, atEnd]
  | succ n ih =>
    intro s
    cases s with
    | nil => simp [timesLoop]
    | cons c t =>
      cases hc : p c with
      | true => simp [timesLoop, hc, ih t]
      | false => simp [timesLoop, hc]

/-- The matcher on `hexExp` returns what the reading by length returns. -/
theorem hexExp_exec (input : JSString) :
    hexExp.exec input = (hexExec input).map (fun m0 => [m0]) := by
  have hrun : ∀ s : JSString, hexExp.run s [] (atEnd input) =
      match s with
      | x :: ds =>
        if x = '#' then
          firstSome (timesLoop isHexDigit 3 ds (fun s' => atEnd input s' []))
            (timesLoop isHexDigit 6 ds (fun s' => atEnd input s' []))
        else none
      | [] => none := by
    intro s
    cases s <;> rfl
  unfold Regex.exec
  rw [hrun]
  cases input with
  | nil => rfl
  | cons x ds =>
    by_cases hx : x = '#'
    · subst hx
      simp only [if_true, timesLoop_atEnd]
      by_cases hall : ds.all isHexDigit = true
      · by_cases h3 : ds.length = 3
        · simp [hexExec, h3, hall, firstSome]
        · by_cases h6 : ds.length = 6
          · simp [hexExec, h6, hall, firstSome]
          · simp [hexExec, h3, h6, firstSome]
      · simp [hexExec, hall, firstSome]
    · have hnone : hexExec (x :: ds) = none := by
        unfold hexExec
        split
        · rename_i heq
          exact absurd (List.cons.inj heq).1 hx
        · rfl
      simp [hx, hnone]

/-- The function `_parseColor` in terms of the deterministic reading of its patterns. -/
theorem parseColor_unfold (input : JSString) :
    _parseColor input =
      match rgbaExec input with
      | some (r, g, b) => some [parseInt r 10, parseInt g 10, parseInt b 10]
      | none =>
        match hexExec input with
        | some m0 =>
          some [parseInt (slice (dropHash m0) 0 2) 16, parseInt (slice (dropHash m0) 2 4) 16,
            parseInt (slice (dropHash m0) 4 6) 16]
        | none => none := by
  unfold _parseColor
  rw [rgbaExp_exec, hexExp_exec]
  cases rgbaExec input with
  | some m => obtain ⟨r, g, b⟩ := m; simp [Option.filter]
  | none =>
    cases hexExec input with
    | some m0 =>
      have h6 : ¬ ((if dropHash m0 = [] then 1 else 0) = 6) := by
        split <;> decide
      simp [Option.filter, h6]
    | none => simp [Option.filter]

/-! ## Lemmas on `parseInt` -/

theorem bitLengthAux_le (fuel : Nat) : ∀ (n k : Nat), n < 2 ^ k → bitLengthAux fuel n ≤ k := by
  induction fuel with
  | zero => intro n k _; exact Nat.zero_le _
  | succ fuel ih =>
    intro n k hn
    unfold bitLengthAux
    by_cases h0 : n = 0
    · simp [h0]
    · rw [if_neg h0]
      cases k with
      | zero => simp at hn; exact absurd hn h0
      | succ k =>
        have hhalf : n / 2 < 2 ^ k := by
          rw [Nat.pow_succ] at hn
          omega
        exact Nat.succ_le_succ (ih (n / 2) k hhalf)

/-- An integer below `2^53` is a Number: no rounding. -/
theorem toNumber_small (n : Nat) (h : n < 2 ^ 53) : toNumber n = JSNum.num n := by
  have hb : bitLength n ≤ 53 := bitLengthAux_le n n 53 h
  unfold toNumber
  rw [if_pos hb]

theorem isDigit_digitValue {c : Char} (h : isDigit c = true) :
    digitValue c = some (c.toNat - 48) ∧ c.toNat - 48 < 10 := by
  have hr : 48 ≤ c.toNat ∧ c.toNat ≤ 57 := by simpa [isDigit] using h
  refine ⟨by simp [digitValue, h], by omega⟩

theorem isRadixDigit_ten {c : Char} (h : isDigit c = true) : isRadixDigit 10 c = true := by
  obtain ⟨hv, hlt⟩ := isDigit_digitValue h
  simp [isRadixDigit, hv, hlt]

theorem isHexDigit_digitValue {c : Char} (h : isHexDigit c = true) :
    ∃ v, digitValue c = some v ∧ v < 16 := by
  unfold digitValue
  by_cases hd : isDigit c = true
  · have hr : 48 ≤ c.toNat ∧ c.toNat ≤ 57 := by simpa [isDigit] using hd
    exact ⟨c.toNat - 48, by simp [hd], by omega⟩
  · by_cases hl : (97 ≤ c.toNat ∧ c.toNat ≤ 102)
    · exact ⟨c.toNat - 87, by simp [hd, hl], by omega⟩
    · by_cases hu : (65 ≤ c.toNat ∧ c.toNat ≤ 70)
      · refine ⟨c.toNat - 55, ?_, by omega⟩
        simp only [hd, Bool.false_eq_true, if_false]
        have hl' : (decide (97 ≤ c.toNat) && decide (c.toNat ≤ 102)) = false := by
          simpa using hl
        have hu' : (decide (65 ≤ c.toNat) && decide (c.toNat ≤ 70)) = true := by
          simpa using hu
        simp [hl', hu']
      · exfalso
        have hd' : isDigit c = false := by simpa using hd
        simp only [isHexDigit, hd', Bool.false_or, Bool.or_eq_true, Bool.and_eq_true,
          decide_eq_true_eq] at h
        rcases h with h | h
        · exact hl h
        · exact hu h

theorem isRadixDigit_sixteen {c : Char} (h : isHexDigit c = true) :
    isRadixDigit 16 c = true := by
  obtain ⟨v, hv, hlt⟩ := isHexDigit_digitValue h
  simp [isRadixDigit, hv, hlt]

theorem takeWhile_all (p : Char → Bool) (xs : JSString) (h : ∀ c ∈ xs, p c = true) :
    xs.takeWhile p = xs := by
  have := takeWhile_append_notHead p xs [] h trivial
  simpa using this

/-- On a non-empty string of decimal digits `parseInt` is the Number value of the
base-10 integer the digits write. -/
theorem parseInt_digits (r : JSString) (hr : Run isDigit r) :
    parseInt r 10 = toNumber (mathInt 10 r) := by
  unfold parseInt
  rw [takeWhile_all _ r (fun c hc => isRadixDigit_ten (hr.2 c hc))]
  cases r with
  | nil => exact absurd rfl hr.1
  | cons c t => rfl

/-- On two hexadecimal digits `parseInt(., 16)` is their base-16 value, at most 255. -/
theorem parseInt_hexPair (c d : Char) (hc : isHexDigit c = true) (hd : isHexDigit d = true) :
    parseInt [c, d] 16 = JSNum.num (mathInt 16 [c, d]) ∧ mathInt 16 [c, d] ≤ 255 := by
  obtain ⟨v, hv, hvlt⟩ := isHexDigit_digitValue hc
  obtain ⟨w, hw, hwlt⟩ := isHexDigit_digitValue hd
  have hval : mathInt 16 [c, d] = v * 16 + w := by
    simp [mathInt, hv, hw]
  have hle : mathInt 16 [c, d] ≤ 255 := by omega
  refine ⟨?_, hle⟩
  unfold parseInt
  have htw : [c, d].takeWhile (isRadixDigit 16) = [c, d] :=
    takeWhile_all _ _ (by
      intro x hx
      simp only [List.mem_cons, List.mem_singleton, List.not_mem_nil, or_false] at hx
      rcases hx with rfl | rfl
      · exact isRadixDigit_sixteen hc
      · exact isRadixDigit_sixteen hd)
  rw [htw]
  exact toNumber_small _ (by omega)

/-- The result of `_parseColor` on a string of the functional notation. -/
theorem parseColor_functional (pre r s1 g s2 b tail : JSString)
    (hpre : pre = "rgb(".toList ∨ pre = "rgba(".toList)
    (hr : Run isDigit r) (hs1 : Run isSep s1) (hg : Run isDigit g) (hs2 : Run isSep s2)
    (hb : Run isDigit b) (ht : AlphaTail tail) :
    _parseColor (pre ++ r ++ s1 ++ g ++ s2 ++ b ++ tail ++ ")".toList) =
      some [toNumber (mathInt 10 r), toNumber (mathInt 10 g), toNumber (mathInt 10 b)] := by
  rw [parseColor_unfold, rgbaExec_functional pre r s1 g s2 b tail hpre hr hs1 hg hs2 hb ht]
  simp [parseInt_digits r hr, parseInt_digits g hg, parseInt_digits b hb]

/-- The result of `_parseColor` on `#` followed by six hexadecimal digits. -/
theorem parseColor_hex6 (d1 d2 d3 d4 d5 d6 : Char)
    (h1 : isHexDigit d1 = true) (h2 : isHexDigit d2 = true) (h3 : isHexDigit d3 = true)
    (h4 : isHexDigit d4 = true) (h5 : isHexDigit d5 = true) (h6 : isHexDigit d6 = true) :
    _parseColor ['#', d1, d2, d3, d4, d5, d6] =
      some [JSNum.num (mathInt 16 [d1, d2]), JSNum.num (mathInt 16 [d3, d4]),
        JSNum.num (mathInt 16 [d5, d6])] := by
  have hx : hexExec ['#', d1, d2, d3, d4, d5, d6] = some ['#', d1, d2, d3, d4, d5, d6] :=
    hexExec_hex [d1, d2, d3, d4, d5, d6] (Or.inr rfl) (by
      intro c hc
      simp only [List.mem_cons, List.mem_singleton, List.not_mem_nil, or_false] at hc
      rcases hc with rfl | rfl | rfl | rfl | rfl | rfl <;> assumption)
  rw [parseColor_unfold, rgbaExec_hash, hx]
  simp [dropHash, slice, (parseInt_hexPair d1 d2 h1 h2).1, (parseInt_hexPair d3 d4 h3 h4).1,
    (parseInt_hexPair d5 d6 h5 h6).1]

/-- The result of `_parseColor` on `#` followed by three hexadecimal digits: the
digits are not doubled. -/
theorem parseColor_hex3 (d1 d2 d3 : Char)
    (h1 : isHexDigit d1 = true) (h2 : isHexDigit d2 = true) (h3 : isHexDigit d3 = true) :
    _parseColor ['#', d1, d2, d3] =
      some [JSNum.num (mathInt 16 [d1, d2]), JSNum.num (mathInt 16 [d3]), JSNum.NaN] := by
  have hx : hexExec ['#', d1, d2, d3] = some ['#', d1, d2, d3] :=
    hexExec_hex [d1, d2, d3] (Or.inl rfl) (by
      intro c hc
      simp only [List.mem_cons, List.mem_singleton, List.not_mem_nil, or_false] at hc
      rcases hc with rfl | rfl | rfl <;> assumption)
  obtain ⟨w, hw, hwlt⟩ := isHexDigit_digitValue h3
  have hp3 : parseInt [d3] 16 = JSNum.num (mathInt 16 [d3]) := by
    have htw : [d3].takeWhile (isRadixDigit 16) = [d3] :=
      takeWhile_all _ _ (by
        intro x hx
        simp only [List.mem_singleton] at hx
        subst hx
        exact isRadixDigit_sixteen h3)
    unfold parseInt
    rw [htw]
    exact toNumber_small _ (by simp [mathInt, hw]; omega)
  have hp0 : parseInt [] 16 = JSNum.NaN := rfl
  rw [parseColor_unfold, rgbaExec_hash, hx]
  simp [dropHash, slice, (parseInt_hexPair d1 d2 h1 h2).1, hp3, hp0]

/-- The hexadecimal digits, listed. -/
theorem isHexDigit_mem {c : Char} (h : isHexDigit c = true) :
    c ∈ "0123456789abcdefABCDEF".toList := by
  have hc : c = Char.ofNat c.toNat := (Char.ofNat_toNat c).symm
  have hr : (48 ≤ c.toNat ∧ c.toNat ≤ 57) ∨ (97 ≤ c.toNat ∧ c.toNat ≤ 102) ∨
      (65 ≤ c.toNat ∧ c.toNat ≤ 70) := by
    simpa [isHexDigit, isDigit, or_assoc] using h
  generalize c.toNat = n at hc hr
  subst hc
  rcases hr with ⟨ha, hb⟩ | ⟨ha, hb⟩ | ⟨ha, hb⟩ <;> interval_cases n <;> decide

/-- Changing the case of a hexadecimal digit keeps it a hexadecimal digit of the
same value. -/
theorem hexDigit_case {c : Char} (h : isHexDigit c = true) :
    isHexDigit c.toLower = true ∧ digitValue c.toLower = digitValue c ∧
    isHexDigit c.toUpper = true ∧ digitValue c.toUpper = digitValue c := by
  have hall : ∀ x ∈ "0123456789abcdefABCDEF".toList,
      isHexDigit x.toLower = true ∧ digitValue x.toLower = digitValue x ∧
      isHexDigit x.toUpper = true ∧ digitValue x.toUpper = digitValue x := by decide
  exact hall c (isHexDigit_mem h)

/-! ## The shape of the result of `_parseColor` -/

theorem toNumber_ne_NaN (n : Nat) : toNumber n ≠ JSNum.NaN := by
  unfold toNumber
  by_cases h1 : bitLength n ≤ 53
  · rw [if_pos h1]
    intro h; cases h
  · rw [if_neg h1]
    have key : ∀ (c : Prop) [Decidable c] (m : Nat),
        (if c then JSNum.Infinity else JSNum.num m) ≠ JSNum.NaN := by
      intro c _ m
      split <;> (intro h; cases h)
    exact key _ _

/-- A value of `toNumber` is a finite integer or `Infinity`. -/
theorem toNumber_cases (n : Nat) : toNumber n = JSNum.Infinity ∨ ∃ m, toNumber n = JSNum.num m := by
  cases h : toNumber n with
  | num m => exact Or.inr ⟨m, rfl⟩
  | NaN => exact absurd h (toNumber_ne_NaN n)
  | Infinity => exact Or.inl rfl

/-- A non-null result of `_parseColor` has exactly three elements. -/
theorem parseColor_length {input : JSString} {arr : List JSNum}
    (h : _parseColor input = some arr) : arr.length = 3 := by
  rw [parseColor_unfold] at h
  cases hx : rgbaExec input with
  | some m =>
    obtain ⟨r, g, b⟩ := m
    simp only [hx, Option.some.injEq] at h
    rw [← h]; rfl
  | none =>
    cases hy : hexExec input with
    | some m0 =>
      simp only [hx, hy, Option.some.injEq] at h
      rw [← h]; rfl
    | none => simp [hx, hy] at h

/-- Outside the short hexadecimal form every element of a non-null result is a
finite integer or `Infinity`. -/
theorem parseColor_elements {input : JSString} {arr : List JSNum}
    (hshort : ∀ d1 d2 d3 : Char, input ≠ ['#', d1, d2, d3])
    (h : _parseColor input = some arr) :
    ∀ x ∈ arr, x = JSNum.Infinity ∨ ∃ m, x = JSNum.num m := by
  cases hx : rgbaExec input with
  | some m =>
    obtain ⟨r, g, b⟩ := m
    obtain ⟨pre, s1, s2, tail, hpre, hr, hs1, hg, hs2, hb, ht, hin⟩ := rgbaExec_some hx
    rw [hin, parseColor_functional pre r s1 g s2 b tail hpre hr hs1 hg hs2 hb ht] at h
    simp only [Option.some.injEq] at h
    subst h
    intro x hxm
    simp only [List.mem_cons, List.mem_singleton, List.not_mem_nil, or_false] at hxm
    rcases hxm with rfl | rfl | rfl <;> exact toNumber_cases _
  | none =>
    cases hy : hexExec input with
    | none =>
      rw [parseColor_unfold] at h
      simp [hx, hy] at h
    | some m0 =>
      obtain ⟨_, ds, hin, hlen, hds⟩ := hexExec_some hy
      rcases hlen with h3 | h6
      · exfalso
        match ds, h3 with
        | [d1, d2, d3], _ => exact hshort d1 d2 d3 hin
      · match ds, h6, hds with
        | [d1, d2, d3, d4, d5, d6], _, hds =>
          rw [hin, parseColor_hex6 d1 d2 d3 d4 d5 d6 (hds _ (by simp)) (hds _ (by simp))
            (hds _ (by simp)) (hds _ (by simp)) (hds _ (by simp)) (hds _ (by simp))] at h
          simp only [Option.some.injEq] at h
          subst h
          intro x hxm
          simp only [List.mem_cons, List.mem_singleton, List.not_mem_nil, or_false] at hxm
          rcases hxm with rfl | rfl | rfl <;> exact Or.inr ⟨_, rfl⟩

/-! ## Lemmas on the steps of the output, one by one -/

/-- Where, and at which index, an element of `A ++ x :: B` found at index `i` comes
from. -/
theorem getElem?_append_cons_index {α : Type} (A B : List α) (x c : α) (i : Nat)
    (h : (A ++ x :: B)[i]? = some c) :
    (i < A.length ∧ A[i]? = some c) ∨ (i = A.length ∧ c = x) ∨
      (A.length < i ∧ B[i - A.length - 1]? = some c) := by
  rcases Nat.lt_trichotomy i A.length with hlt | heq | hgt
  · left
    rw [List.getElem?_append_left hlt] at h
    exact ⟨hlt, h⟩
  · right; left
    subst heq
    rw [getElem?_append_cons_self] at h
    exact ⟨rfl, (Option.some.inj h).symm⟩
  · right; right
    rw [List.getElem?_append_right (Nat.le_of_lt hgt)] at h
    obtain ⟨k, hk⟩ : ∃ k, i - A.length = k + 1 := ⟨i - A.length - 1, by omega⟩
    have hk' : i - A.length - 1 = k := by omega
    rw [hk, List.getElem?_cons_succ] at h
    rw [hk']
    exact ⟨hgt, h⟩

/-- A non-null output comes from a valid record with at least one row. -/
theorem getProcessFlowSteps_some (checkRecord : GlideRecord → JSString → Bool)
    (sysProcessFlow : JSString → List ProcessFlowRow) (current : GlideRecord)
    (out : List GlideChoice)
    (h : getProcessFlowSteps checkRecord sysProcessFlow (some current) = some out) :
    current.isValidRecord = true ∧ sysProcessFlow current.sys_class_name ≠ [] := by
  cases hv : current.isValidRecord with
  | false => simp [getProcessFlowSteps, hv] at h
  | true =>
    refine ⟨rfl, ?_⟩
    intro he
    simp [getProcessFlowSteps, hv, he] at h

/-- Every step of the output stands at the index of the row it is built from, and is
the past, the future or the current step of that row. -/
theorem output_pointwise (checkRecord : GlideRecord → JSString → Bool)
    (sysProcessFlow : JSString → List ProcessFlowRow) (current : GlideRecord)
    (hv : current.isValidRecord = true)
    (hne : sysProcessFlow current.sys_class_name ≠ []) :
    ∃ out, getProcessFlowSteps checkRecord sysProcessFlow (some current) = some out ∧
      ∀ (i : Nat) (c : GlideChoice), out[i]? = some c →
        ∃ d, (sysProcessFlow current.sys_class_name)[i]? = some d ∧
          (c = pastChoice d ∨ c = futureChoice d ∨ c = currentChoice d) := by
  rcases firstMatch_split checkRecord current (sysProcessFlow current.sys_class_name) with
    hno | ⟨pre, d, post, hrows, hno, hm⟩
  · refine ⟨_, getProcessFlowSteps_noMatch _ _ _ hv hne hno, ?_⟩
    intro i c hc
    rw [List.getElem?_map] at hc
    cases hd : (sysProcessFlow current.sys_class_name)[i]? with
    | none => rw [hd] at hc; cases hc
    | some x =>
      rw [hd] at hc
      exact ⟨x, rfl, Or.inl (Option.some.inj hc).symm⟩
  · refine ⟨_, getProcessFlowSteps_match _ _ _ pre post d hv hrows hno hm, ?_⟩
    intro i c hc
    rw [hrows]
    rcases getElem?_append_cons_index _ _ _ _ _ hc with ⟨hi, hA⟩ | ⟨hi, hx⟩ | ⟨hi, hB⟩
    · rw [List.length_map] at hi
      rw [List.getElem?_map] at hA
      rw [List.getElem?_append_left hi]
      cases hd : pre[i]? with
      | none => rw [hd] at hA; cases hA
      | some x =>
        rw [hd] at hA
        exact ⟨x, rfl, Or.inl (Option.some.inj hA).symm⟩
    · rw [List.length_map] at hi
      subst hi
      exact ⟨d, getElem?_append_cons_self _ _ _, Or.inr (Or.inr hx)⟩
    · rw [List.length_map] at hi hB
      cases he : d.u_end_step with
      | true => simp [he] at hB
      | false =>
        simp only [he, Bool.false_eq_true, if_false] at hB
        rw [List.getElem?_map] at hB
        have hrow : (pre ++ d :: post)[i]? = post[i - pre.length - 1]? := by
          rw [List.getElem?_append_right (Nat.le_of_lt hi)]
          obtain ⟨k, hk⟩ : ∃ k, i - pre.length = k + 1 := ⟨i - pre.length - 1, by omega⟩
          have hk' : i - pre.length - 1 = k := by omega
          rw [hk', hk, List.getElem?_cons_succ]
        rw [hrow]
        cases hd : post[i - pre.length - 1]? with
        | none => rw [hd] at hB; cases hB
        | some x =>
          rw [hd] at hB
          exact ⟨x, rfl, Or.inr (Or.inl (Option.some.inj hB).symm)⟩

/-- When the parameter `rgb_triplet` of the current step is set, and to what. -/
theorem currentTriplet_eq_some (d : ProcessFlowRow) (t : List JSNum) :
    currentTriplet d = some t ↔
      (nilString d.u_color = false ∧ _parseColor (d.u_color.getD []) = some t) := by
  unfold currentTriplet
  cases hn : nilString d.u_color with
  | true => simp
  | false =>
    cases hp : _parseColor (d.u_color.getD []) with
    | none => simp
    | some arr =>
      have hlen := parseColor_length hp
      simp [hlen]

/-! ## Lemmas on the colours and the rest of the output -/

/-- One iteration on two rows that differ at most in their colour, from loop
variables that differ at most in the colours of the choices. -/
theorem loopBody_view (checkRecord : GlideRecord → JSString → Bool) (current : GlideRecord)
    (st st' : LoopState) (d d' : ProcessFlowRow) (hd : rowView d = rowView d')
    (hc : st.choices.map stepView = st'.choices.map stepView)
    (hf : st.foundCurrentStep = st'.foundCurrentStep)
    (hr : st.reachedEndStep = st'.reachedEndStep) :
    (loopBody checkRecord current st d).choices.map stepView =
      (loopBody checkRecord current st' d').choices.map stepView ∧
    (loopBody checkRecord current st d).foundCurrentStep =
      (loopBody checkRecord current st' d').foundCurrentStep ∧
    (loopBody checkRecord current st d).reachedEndStep =
      (loopBody checkRecord current st' d').reachedEndStep := by
  simp only [rowView, Prod.mk.injEq] at hd
  obtain ⟨hname, hlabel, hcond, hend⟩ := hd
  cases hfound : st.foundCurrentStep with
  | true =>
    rw [loopBody_found _ _ _ _ hfound, loopBody_found _ _ _ _ (hf ▸ hfound)]
    simp [hc, hf, hr, futureChoice, stepView, hname, hlabel]
  | false =>
    cases hm : checkRecord current d.condition with
    | true =>
      rw [loopBody_match _ _ _ _ hfound hm,
        loopBody_match _ _ _ _ (hf ▸ hfound) (hcond ▸ hm)]
      simp [hc, hr, currentChoice, stepView, hname, hlabel, hend]
    | false =>
      rw [loopBody_noMatch _ _ _ _ hfound hm,
        loopBody_noMatch _ _ _ _ (hf ▸ hfound) (hcond ▸ hm)]
      simp [hc, hf, hr, pastChoice, stepView, hname, hlabel]

/-- The loop on two lists of rows that differ at most in their colours. -/
theorem whileLoop_view (checkRecord : GlideRecord → JSString → Bool) (current : GlideRecord)
    (rows : List ProcessFlowRow) :
    ∀ (rows' : List ProcessFlowRow) (st st' : LoopState),
      rows.map rowView = rows'.map rowView →
      st.choices.map stepView = st'.choices.map stepView →
      st.foundCurrentStep = st'.foundCurrentStep →
      st.reachedEndStep = st'.reachedEndStep →
      (whileLoop checkRecord current rows st).choices.map stepView =
        (whileLoop checkRecord current rows' st').choices.map stepView := by
  induction rows with
  | nil =>
    intro rows' st st' hrows hc _ _
    cases rows' with
    | nil => simpa [whileLoop] using hc
    | cons d' t' => simp at hrows
  | cons d t ih =>
    intro rows' st st' hrows hc hf hr
    cases rows' with
    | nil => simp at hrows
    | cons d' t' =>
      simp only [List.map_cons, List.cons.injEq] at hrows
      obtain ⟨hd, ht⟩ := hrows
      cases hreached : st.reachedEndStep with
      | true =>
        rw [whileLoop_reached _ _ _ _ hreached, whileLoop_reached _ _ _ _ (hr ▸ hreached)]
        exact hc
      | false =>
        have hreached' : st'.reachedEndStep = false := hr ▸ hreached
        rw [whileLoop, whileLoop, if_neg (by simp [hreached]), if_neg (by simp [hreached'])]
        obtain ⟨h1, h2, h3⟩ := loopBody_view checkRecord current st st' d d' hd hc hf hr
        exact ih t' _ _ ht h1 h2 h3

/-! ## Lemmas on the loop with its host calls -/

theorem loopBodyTraced_fst (checkRecord : GlideRecord → JSString → Bool)
    (current : GlideRecord) (st : LoopState) (calls : List HostCall) (d : ProcessFlowRow) :
    (loopBodyTraced checkRecord current st calls d).1 = loopBody checkRecord current st d := by
  unfold loopBodyTraced loopBody
  simp only
  split
  · cases nilString d.u_color with
    | true => rfl
    | false =>
      cases _parseColor (d.u_color.getD []) with
      | none => rfl
      | some arr =>
        by_cases hl : arr.length = 3
        · simp [hl]
        · simp [hl]
  · split <;> rfl

theorem checkedConditions_append (xs ys : List HostCall) :
    checkedConditions (xs ++ ys) = checkedConditions xs ++ checkedConditions ys := by
  simp [checkedConditions, List.filterMap_append]

/-- One iteration calls the evaluator once, on the condition of its row. -/
theorem loopBodyTraced_checked (checkRecord : GlideRecord → JSString → Bool)
    (current : GlideRecord) (st : LoopState) (calls : List HostCall) (d : ProcessFlowRow) :
    checkedConditions (loopBodyTraced checkRecord current st calls d).2 =
      checkedConditions calls ++ [d.condition] := by
  have hbase : checkedConditions (calls ++ [HostCall.checkRecord d.condition]) =
      checkedConditions calls ++ [d.condition] := by
    rw [checkedConditions_append]; rfl
  have herr : checkedConditions (calls ++ [HostCall.checkRecord d.condition] ++
      [HostCall.error (d.u_color.getD [])]) = checkedConditions calls ++ [d.condition] := by
    rw [checkedConditions_append, hbase]
    simp [checkedConditions]
  unfold loopBodyTraced
  simp only
  split
  · cases nilString d.u_color with
    | true => exact hbase
    | false =>
      cases _parseColor (d.u_color.getD []) with
      | none => exact herr
      | some arr =>
        by_cases hl : arr.length = 3
        · simp only [Bool.not_false, if_true, hl]
          exact hbase
        · simp only [Bool.not_false, if_true, hl, if_false]
          exact herr
  · split <;> exact hbase

theorem loopBody_length (checkRecord : GlideRecord → JSString → Bool)
    (current : GlideRecord) (st : LoopState) (d : ProcessFlowRow) :
    (loopBody checkRecord current st d).choices.length = st.choices.length + 1 := by
  cases hf : st.foundCurrentStep with
  | true => rw [loopBody_found _ _ _ _ hf]; simp
  | false =>
    cases hm : checkRecord current d.condition with
    | true => rw [loopBody_match _ _ _ _ hf hm]; simp
    | false => rw [loopBody_noMatch _ _ _ _ hf hm]; simp

theorem whileLoop_length_le (checkRecord : GlideRecord → JSString → Bool)
    (current : GlideRecord) (rows : List ProcessFlowRow) :
    ∀ st : LoopState,
      st.choices.length ≤ (whileLoop checkRecord current rows st).choices.length := by
  induction rows with
  | nil => intro st; exact Nat.le_refl _
  | cons d t ih =>
    intro st
    unfold whileLoop
    split
    · exact Nat.le_refl _
    · have h1 := ih (loopBody checkRecord current st d)
      have h2 := loopBody_length checkRecord current st d
      omega

theorem whileLoopTraced_fst (checkRecord : GlideRecord → JSString → Bool)
    (current : GlideRecord) (rows : List ProcessFlowRow) :
    ∀ (st : LoopState) (calls : List HostCall),
      (whileLoopTraced checkRecord current rows st calls).1 =
        whileLoop checkRecord current rows st := by
  induction rows with
  | nil => intro st calls; rfl
  | cons d t ih =>
    intro st calls
    unfold whileLoopTraced whileLoop
    split
    · rfl
    · rw [ih, loopBodyTraced_fst]

/-- The loop calls the evaluator once per iteration: on the rows that get a step, in
order. -/
theorem whileLoopTraced_checked (checkRecord : GlideRecord → JSString → Bool)
    (current : GlideRecord) (rows : List ProcessFlowRow) :
    ∀ (st : LoopState) (calls : List HostCall),
      checkedConditions (whileLoopTraced checkRecord current rows st calls).2 =
        checkedConditions calls ++
          (rows.take ((whileLoop checkRecord current rows st).choices.length -
            st.choices.length)).map (fun d => d.condition) := by
  induction rows with
  | nil => intro st calls; simp [whileLoopTraced]
  | cons d t ih =>
    intro st calls
    unfold whileLoopTraced whileLoop
    split
    · simp
    · rw [ih, loopBodyTraced_checked, loopBodyTraced_fst]
      have h1 := whileLoop_length_le checkRecord current t (loopBody checkRecord current st d)
      have h2 := loopBody_length checkRecord current st d
      have hn : (whileLoop checkRecord current t (loopBody checkRecord current st d)).choices.length
          - st.choices.length =
          ((whileLoop checkRecord current t (loopBody checkRecord current st d)).choices.length
            - (loopBody checkRecord current st d).choices.length) + 1 := by omega
      rw [hn, List.take_succ_cons]
      simp

/-- The output of the call does not depend on the host calls made before it. -/
theorem getProcessFlowStepsTraced_fst (checkRecord : GlideRecord → JSString → Bool)
    (sysProcessFlow : JSString → List ProcessFlowRow) (current : Option GlideRecord)
    (calls : List HostCall) :
    (getProcessFlowStepsTraced checkRecord sysProcessFlow current calls).1 =
      getProcessFlowSteps checkRecord sysProcessFlow current := by
  cases current with
  | none => rfl
  | some r =>
    unfold getProcessFlowStepsTraced getProcessFlowSteps
    simp only
    split
    · rfl
    · split
      · rfl
      · simp only [whileLoopTraced_fst]

theorem getProcessFlowStepsTraced_checked (checkRecord : GlideRecord → JSString → Bool)
    (sysProcessFlow : JSString → List ProcessFlowRow) (current : GlideRecord)
    (calls : List HostCall) (hv : current.isValidRecord = true)
    (hne : sysProcessFlow current.sys_class_name ≠ []) :
    ∃ out, getProcessFlowSteps checkRecord sysProcessFlow (some current) = some out ∧
      checkedConditions
          (getProcessFlowStepsTraced checkRecord sysProcessFlow (some current) calls).2 =
        checkedConditions calls ++
          ((sysProcessFlow current.sys_class_name).take out.length).map
            (fun d => d.condition) := by
  refine ⟨(whileLoop checkRecord current (sysProcessFlow current.sys_class_name)
    initState).choices, ?_, ?_⟩
  · simp [getProcessFlowSteps, hv, hne, initState]
  · have h := whileLoopTraced_checked checkRecord current
      (sysProcessFlow current.sys_class_name) initState calls
    simp only [getProcessFlowStepsTraced, hv, Bool.not_true, Bool.false_eq_true, if_false]
    have he : (sysProcessFlow current.sys_class_name).isEmpty = false := by
      cases hq : sysProcessFlow current.sys_class_name with
      | nil => exact absurd hq hne
      | cons _ _ => rfl
    simp only [he, Bool.false_eq_true, if_false]
    simpa [initState] using h

/-! ## Lemmas on the objects of the host -/

/-- A new `RegExp` object is found under the reference returned for it. -/
theorem newRegExp_lookup (h : Host) (p : Regex) :
    (h.newRegExp p).2.regExps[(h.newRegExp p).1]? =
      some { pattern := p, lastIndex := 0 } :=
  List.getElem?_concat_length _ _

theorem copyRegExp_of_lookup (h : Host) (re : Nat) (o : RegExpObject)
    (ho : h.regExps[re]? = some o) : h.copyRegExp re = h.newRegExp o.pattern := by
  simp [Host.copyRegExp, ho]

theorem exec_of_lookup (h : Host) (re : Nat) (o : RegExpObject) (input : JSString)
    (ho : h.regExps[re]? = some o) :
    (h.exec re input).1 = (if o.lastIndex = 0 then o.pattern.exec input else none) ∧
    (h.exec re input).2.cursors = h.cursors ∧ (h.exec re input).2.calls = h.calls := by
  simp [Host.exec, ho]

/-- A pattern literal, `new RegExp` on it and `exec` on the copy: the search starts at
index 0 whatever objects the host holds already. -/
theorem execNew_spec (h : Host) (p : Regex) (input : JSString) :
    (h.execNew p input).1 = p.exec input ∧
    (h.execNew p input).2.cursors = h.cursors ∧
    (h.execNew p input).2.calls = h.calls := by
  unfold Host.execNew
  simp only
  rw [copyRegExp_of_lookup _ _ _ (newRegExp_lookup h p)]
  obtain ⟨e1, e2, e3⟩ := exec_of_lookup _ _ _ input (newRegExp_lookup (h.newRegExp p).2 p)
  exact ⟨by rw [e1]; rfl, by rw [e2]; rfl, by rw [e3]; rfl⟩

/-- On the host `_parseColor` returns what it returns on its input alone, and leaves the
cursors and the host calls as they are. -/
theorem parseColorHost_spec (h : Host) (input : JSString) :
    (_parseColorHost h input).1 = _parseColor input ∧
    (_parseColorHost h input).2.cursors = h.cursors ∧
    (_parseColorHost h input).2.calls = h.calls := by
  obtain ⟨a1, a2, a3⟩ := execNew_spec h rgbaExp input
  unfold _parseColorHost _parseColor
  simp only
  generalize h.execNew rgbaExp input = first at a1 a2 a3
  obtain ⟨r1, h1⟩ := first
  simp only at a1 a2 a3
  subst a1
  cases (rgbaExp.exec input).filter (fun m => m.length == 4) with
  | some m => exact ⟨rfl, a2, a3⟩
  | none =>
    obtain ⟨b1, b2, b3⟩ := execNew_spec h1 hexExp input
    simp only
    generalize h1.execNew hexExp input = second at b1 b2 b3
    obtain ⟨r2, h2⟩ := second
    simp only at b1 b2 b3
    subst b1
    cases hexExp.exec input with
    | none => exact ⟨rfl, b2.trans a2, b3.trans a3⟩
    | some m =>
      cases m with
      | nil => exact ⟨rfl, b2.trans a2, b3.trans a3⟩
      | cons m0 t => exact ⟨rfl, b2.trans a2, b3.trans a3⟩

/-- On the host one iteration changes the loop variables as `loopBody` does, and
leaves the cursors as they are. -/
theorem loopBodyHost_spec (checkRecord : GlideRecord → JSString → Bool)
    (current : GlideRecord) (h : Host) (st : LoopState) (d : ProcessFlowRow) :
    (loopBodyHost checkRecord current h st d).1 = loopBody checkRecord current st d ∧
    (loopBodyHost checkRecord current h st d).2.cursors = h.cursors := by
  obtain ⟨p1, p2, _⟩ := parseColorHost_spec
    { h with calls := h.calls ++ [HostCall.checkRecord d.condition] } (d.u_color.getD [])
  unfold loopBodyHost loopBody
  simp only
  generalize _parseColorHost
    { h with calls := h.calls ++ [HostCall.checkRecord d.condition] } (d.u_color.getD []) =
    parsed at p1 p2
  obtain ⟨r, h1⟩ := parsed
  simp only at p1 p2
  subst p1
  split
  · cases nilString d.u_color with
    | true => exact ⟨rfl, rfl⟩
    | false =>
      simp only [Bool.not_false, if_true]
      cases _parseColor (d.u_color.getD []) with
      | none => exact ⟨rfl, p2⟩
      | some arr =>
        by_cases hl : arr.length = 3
        · simp only [hl, if_true]
          exact ⟨trivial, p2⟩
        · simp only [hl, if_false]
          exact ⟨trivial, p2⟩
  · split <;> exact ⟨rfl, rfl⟩

theorem next_of_row (h : Host) (gr : Nat) (c : GlideCursor) (row : ProcessFlowRow)
    (hc : h.cursors[gr]? = some c) (hrow : c.rows[c.position]? = some row) :
    (h.next gr).1 = some row ∧
    (h.next gr).2.cursors[gr]? = some { c with position := c.position + 1 } := by
  have hlt : gr < h.cursors.length := (List.getElem?_eq_some.mp hc).1
  simp [Host.next, hc, hrow, hlt]

theorem next_of_end (h : Host) (gr : Nat) (c : GlideCursor)
    (hc : h.cursors[gr]? = some c) (hrow : c.rows[c.position]? = none) :
    (h.next gr).1 = none := by
  simp [Host.next, hc, hrow]

/-- On a cursor that has stepped onto `k` of its rows, the loop on the host changes
the loop variables as `whileLoop` does on the rows that are left, given fuel for
them. -/
theorem whileLoopHost_spec (checkRecord : GlideRecord → JSString → Bool)
    (current : GlideRecord) (gr : Nat) (rows : List ProcessFlowRow) (fuel : Nat) :
    ∀ (h : Host) (st : LoopState) (k : Nat),
      h.cursors[gr]? = some { rows := rows, position := k } →
      rows.length < fuel + k →
      (whileLoopHost checkRecord current gr fuel h st).1 =
        whileLoop checkRecord current (rows.drop k) st := by
  induction fuel with
  | zero =>
    intro h st k _ hfuel
    rw [List.drop_eq_nil_of_le (by omega)]
    rfl
  | succ fuel ih =>
    intro h st k hc hfuel
    unfold whileLoopHost
    cases hrow : rows[k]? with
    | none =>
      rw [next_of_end h gr _ hc hrow]
      have hk : rows.length ≤ k := by
        rcases Nat.lt_or_ge k rows.length with hlt | hge
        · rw [List.getElem?_eq_getElem hlt] at hrow; cases hrow
        · exact hge
      rw [List.drop_eq_nil_of_le hk]
      rfl
    | some row =>
      obtain ⟨n1, n2⟩ := next_of_row h gr _ row hc hrow
      obtain ⟨hlt, hget⟩ := List.getElem?_eq_some.mp hrow
      rw [List.drop_eq_getElem_cons hlt, hget, n1]
      simp only
      unfold whileLoop
      split
      · rfl
      · obtain ⟨b1, b2⟩ := loopBodyHost_spec checkRecord current (h.next gr).2 st row
        rw [ih _ _ (k + 1) (by rw [b2]; exact n2) (by omega), b1]

/-- On the host the call returns what `getProcessFlowSteps` returns on its inputs
alone, whatever objects the host holds when the call starts. -/
theorem getProcessFlowStepsHost_fst (checkRecord : GlideRecord → JSString → Bool)
    (sysProcessFlow : JSString → List ProcessFlowRow) (current : Option GlideRecord)
    (h : Host) :
    (getProcessFlowStepsHost checkRecord sysProcessFlow current h).1 =
      getProcessFlowSteps checkRecord sysProcessFlow current := by
  cases current with
  | none => rfl
  | some r =>
    unfold getProcessFlowStepsHost getProcessFlowSteps
    simp only
    split
    · rfl
    · have hq : (h.query (sysProcessFlow r.sys_class_name)).2.cursors[
          (h.query (sysProcessFlow r.sys_class_name)).1]? =
          some { rows := sysProcessFlow r.sys_class_name, position := 0 } :=
        List.getElem?_concat_length _ _
      cases hrows : sysProcessFlow r.sys_class_name with
      | nil =>
        rw [hrows] at hq
        simp [Host.hasNext, hq]
      | cons d t =>
        rw [hrows] at hq
        have hn : ((h.query (d :: t)).2.hasNext (h.query (d :: t)).1) = true := by
          simp [Host.hasNext, hq]
        simp only [hn, Bool.not_true, Bool.false_eq_true, if_false, List.isEmpty_cons]
        rw [whileLoopHost_spec checkRecord r (h.query (d :: t)).1 (d :: t)
          ((d :: t).length + 1) _ _ 0 hq (by omega)]
        rfl

/-! ## The properties of the specification -/

/-- C1: for a valid record with at least one step definition, the output has at most
one step with state `current`; a step with state `current` at index `i` is built from
the definition at index `i`, that definition matches and no earlier one does, every
output step before index `i` has state `past` and every one after has state `future`. -/
theorem single_current_step (checkRecord : GlideRecord → JSString → Bool)
    (sysProcessFlow : JSString → List ProcessFlowRow) (current : GlideRecord)
    (hv : current.isValidRecord = true)
    (hne : sysProcessFlow current.sys_class_name ≠ []) :
    ∃ out, getProcessFlowSteps checkRecord sysProcessFlow (some current) = some out ∧
      out.countP (fun c => decide (c.state = StepState.current)) ≤ 1 ∧
      ∀ (i : Nat) (c : GlideChoice), out[i]? = some c → c.state = StepState.current →
        (∃ d, (sysProcessFlow current.sys_class_name)[i]? = some d ∧
          c.name = d.name ∧ c.label = d.label ∧
          checkRecord current d.condition = true ∧
          ∀ (j : Nat) (d' : ProcessFlowRow), j < i →
            (sysProcessFlow current.sys_class_name)[j]? = some d' →
            checkRecord current d'.condition = false) ∧
        (∀ (j : Nat) (c' : GlideChoice), j < i → out[j]? = some c' →
          c'.state = StepState.past) ∧
        (∀ (j : Nat) (c' : GlideChoice), i < j → out[j]? = some c' →
          c'.state = StepState.future) := by
  rcases firstMatch_split checkRecord current (sysProcessFlow current.sys_class_name) with
    hno | ⟨pre, d, post, hrows, hno, hm⟩
  · refine ⟨_, getProcessFlowSteps_noMatch _ _ _ hv hne hno, ?_, ?_⟩
    · rw [List.countP_eq_zero.mpr]
      · exact Nat.zero_le _
      · intro c hc
        obtain ⟨x, _, rfl⟩ := List.mem_map.mp hc
        simp [pastChoice]
    · intro i c hc hcur
      obtain ⟨x, _, rfl⟩ := List.mem_map.mp (List.getElem?_mem hc)
      simp [pastChoice] at hcur
  · have hpast : ∀ c ∈ pre.map pastChoice, c.state = StepState.past := by
      intro c hc
      obtain ⟨x, _, rfl⟩ := List.mem_map.mp hc
      rfl
    have hfut : ∀ c ∈ (if d.u_end_step then [] else post.map futureChoice),
        c.state = StepState.future := by
      intro c hc
      split at hc
      · simp at hc
      · obtain ⟨x, _, rfl⟩ := List.mem_map.mp hc
        rfl
    refine ⟨_, getProcessFlowSteps_match _ _ _ pre post d hv hrows hno hm, ?_, ?_⟩
    · rw [List.countP_append, List.countP_cons, List.countP_eq_zero.mpr,
        List.countP_eq_zero.mpr]
      · simp [currentChoice]
      · intro c hc; simp [hfut c hc]
      · intro c hc; simp [hpast c hc]
    · intro i c hc hcur
      rcases getElem?_append_cons_cases _ _ _ _ _ hc with ⟨_, hA⟩ | ⟨hi, hx⟩ | ⟨_, hB⟩
      · rw [hpast c hA] at hcur; cases hcur
      · subst hi
        subst hx
        refine ⟨⟨d, ?_, rfl, rfl, hm, ?_⟩, ?_, ?_⟩
        · rw [hrows, List.length_map]
          exact getElem?_append_cons_self _ _ _
        · intro j d' hj hd'
          rw [hrows] at hd'
          rcases getElem?_append_cons_cases _ _ _ _ _ hd' with ⟨_, hA⟩ | ⟨hi, _⟩ | ⟨hi, _⟩
          · exact hno d' hA
          · simp at hj; omega
          · simp at hj; omega
        · intro j c' hj hc'
          rcases getElem?_append_cons_cases _ _ _ _ _ hc' with ⟨_, hA⟩ | ⟨hi, _⟩ | ⟨hi, _⟩
          · exact hpast c' hA
          · omega
          · omega
        · intro j c' hj hc'
          rcases getElem?_append_cons_cases _ _ _ _ _ hc' with ⟨hi, _⟩ | ⟨hi, _⟩ | ⟨_, hB⟩
          · omega
          · omega
          · exact hfut c' hB
      · rw [hfut c hB] at hcur; cases hcur

/-- Witness for C1: the rows `A`, `B` (first match), `C` of `exRowsEnd`. -/
theorem single_current_step_witness :
    exRecord.isValidRecord = true ∧ exRowsEnd ≠ [] ∧
    ∃ out, getProcessFlowSteps exCheck (fun _ => exRowsEnd) (some exRecord) = some out ∧
      out.countP (fun c => decide (c.state = StepState.current)) ≤ 1 ∧
      ∀ (i : Nat) (c : GlideChoice), out[i]? = some c → c.state = StepState.current →
        (∃ d, exRowsEnd[i]? = some d ∧
          c.name = d.name ∧ c.label = d.label ∧
          exCheck exRecord d.condition = true ∧
          ∀ (j : Nat) (d' : ProcessFlowRow), j < i →
            exRowsEnd[j]? = some d' → exCheck exRecord d'.condition = false) ∧
        (∀ (j : Nat) (c' : GlideChoice), j < i → out[j]? = some c' →
          c'.state = StepState.past) ∧
        (∀ (j : Nat) (c' : GlideChoice), i < j → out[j]? = some c' →
          c'.state = StepState.future) :=
  ⟨rfl, by decide,
    single_current_step exCheck (fun _ => exRowsEnd) exRecord rfl (by decide)⟩

/-- C2: when the rows are `pre ++ d :: post`, no row of `pre` matches, `d` matches and
`d` is an end step, the output has `pre.length + 1` steps (index of the first match
plus one), they are the steps of `pre ++ [d]` in order, and the last one is the step
of `d` with state `current`: no row of `post` appears. -/
theorem terminal_match_ends_output (checkRecord : GlideRecord → JSString → Bool)
    (sysProcessFlow : JSString → List ProcessFlowRow) (current : GlideRecord)
    (pre post : List ProcessFlowRow) (d : ProcessFlowRow)
    (hv : current.isValidRecord = true)
    (hrows : sysProcessFlow current.sys_class_name = pre ++ d :: post)
    (hno : ∀ x ∈ pre, checkRecord current x.condition = false)
    (hm : checkRecord current d.condition = true)
    (hend : d.u_end_step = true) :
    ∃ out, getProcessFlowSteps checkRecord sysProcessFlow (some current) = some out ∧
      out.length = pre.length + 1 ∧
      out.map (fun c => (c.name, c.label)) = (pre ++ [d]).map (fun x => (x.name, x.label)) ∧
      ∃ c, out.getLast? = some c ∧ c.name = d.name ∧ c.label = d.label ∧
        c.state = StepState.current := by
  refine ⟨_, getProcessFlowSteps_match _ _ _ pre post d hv hrows hno hm, ?_, ?_, ?_⟩
  · simp [hend]
  · simp [hend, pastChoice, currentChoice, Function.comp_def]
  · refine ⟨currentChoice d, ?_, rfl, rfl, rfl⟩
    simp [hend]

/-- Witness for C2: in `exRowsEnd` the first match `B` is an end step. -/
theorem terminal_match_ends_output_witness :
    exRecord.isValidRecord = true ∧
    exRowsEnd = [rowA] ++ rowBEnd ::
      [rowC] ∧
    (∀ x ∈ [rowA], exCheck exRecord x.condition = false) ∧
    exCheck exRecord rowBEnd.condition = true ∧
    rowBEnd.u_end_step = true ∧
    ∃ out, getProcessFlowSteps exCheck (fun _ => exRowsEnd) (some exRecord) = some out ∧
      out.length = [rowA].length + 1 ∧
      out.map (fun c => (c.name, c.label)) =
        ([rowA] ++ [rowBEnd]).map
          (fun x => (x.name, x.label)) ∧
      ∃ c, out.getLast? = some c ∧ c.name = rowBEnd.name ∧
        c.label = rowBEnd.label ∧ c.state = StepState.current :=
  ⟨rfl, rfl, by decide, rfl, rfl,
    terminal_match_ends_output exCheck (fun _ => exRowsEnd) exRecord
      [rowA] [rowC]
      rowBEnd rfl rfl (by decide) rfl rfl⟩

/-- C3: when the rows are `pre ++ d :: post`, no row of `pre` matches, `d` matches and
`d` is not an end step, the output has one step per row, in the order of the rows, and
the steps after the one of `d` are the rows of `post` with state `future` (and no
`rgb_triplet`). -/
theorem open_match_keeps_all_rows (checkRecord : GlideRecord → JSString → Bool)
    (sysProcessFlow : JSString → List ProcessFlowRow) (current : GlideRecord)
    (pre post : List ProcessFlowRow) (d : ProcessFlowRow)
    (hv : current.isValidRecord = true)
    (hrows : sysProcessFlow current.sys_class_name = pre ++ d :: post)
    (hno : ∀ x ∈ pre, checkRecord current x.condition = false)
    (hm : checkRecord current d.condition = true)
    (hend : d.u_end_step = false) :
    ∃ out, getProcessFlowSteps checkRecord sysProcessFlow (some current) = some out ∧
      out.length = (sysProcessFlow current.sys_class_name).length ∧
      out.map (fun c => (c.name, c.label)) =
        (sysProcessFlow current.sys_class_name).map (fun x => (x.name, x.label)) ∧
      out.drop (pre.length + 1) = post.map (fun x =>
        { name := x.name, label := x.label, state := StepState.future,
          rgb_triplet := none }) ∧
      ∀ (j : Nat) (c : GlideChoice), pre.length < j → out[j]? = some c →
        c.state = StepState.future := by
  refine ⟨_, getProcessFlowSteps_match _ _ _ pre post d hv hrows hno hm, ?_, ?_, ?_, ?_⟩
  · simp [hend, hrows]
  · simp [hend, hrows, pastChoice, currentChoice, futureChoice, Function.comp_def]
  · have hlen : pre.length + 1 = (pre.map pastChoice ++ [currentChoice d]).length := by simp
    have happ : pre.map pastChoice ++ currentChoice d ::
        (if d.u_end_step then [] else post.map futureChoice) =
        (pre.map pastChoice ++ [currentChoice d]) ++ post.map futureChoice := by
      simp [hend]
    rw [happ, hlen, List.drop_left]
    rfl
  · intro j c hj hc
    rcases getElem?_append_cons_cases _ _ _ _ _ hc with ⟨hi, _⟩ | ⟨hi, _⟩ | ⟨_, hB⟩
    · simp at hi; omega
    · simp at hi; omega
    · simp only [hend] at hB
      obtain ⟨x, _, rfl⟩ := List.mem_map.mp hB
      rfl

/-- Witness for C3: in `exRowsOpen` the first match `B` is not an end step. -/
theorem open_match_keeps_all_rows_witness :
    exRecord.isValidRecord = true ∧
    exRowsOpen = [rowA] ++ rowBOpen ::
      [rowC] ∧
    (∀ x ∈ [rowA], exCheck exRecord x.condition = false) ∧
    exCheck exRecord rowBOpen.condition = true ∧
    rowBOpen.u_end_step = false ∧
    ∃ out, getProcessFlowSteps exCheck (fun _ => exRowsOpen) (some exRecord) = some out ∧
      out.length = exRowsOpen.length ∧
      out.map (fun c => (c.name, c.label)) = exRowsOpen.map (fun x => (x.name, x.label)) ∧
      out.drop ([rowA].length + 1) =
        [rowC].map (fun x =>
          { name := x.name, label := x.label, state := StepState.future,
            rgb_triplet := none }) ∧
      ∀ (j : Nat) (c : GlideChoice), [rowA].length < j →
        out[j]? = some c → c.state = StepState.future :=
  ⟨rfl, rfl, by decide, rfl, rfl,
    open_match_keeps_all_rows exCheck (fun _ => exRowsOpen) exRecord
      [rowA] [rowC]
      rowBOpen rfl rfl (by decide) rfl rfl⟩

/-- C4: for a valid record with at least one row and an evaluator that is false on
every row, the output is the list of the rows, in order, each with state `past` and
without `rgb_triplet`, whatever `u_color` and `u_end_step` are. -/
theorem no_match_all_past (checkRecord : GlideRecord → JSString → Bool)
    (sysProcessFlow : JSString → List ProcessFlowRow) (current : GlideRecord)
    (hv : current.isValidRecord = true)
    (hne : sysProcessFlow current.sys_class_name ≠ [])
    (hno : ∀ x ∈ sysProcessFlow current.sys_class_name,
      checkRecord current x.condition = false) :
    ∃ out, getProcessFlowSteps checkRecord sysProcessFlow (some current) = some out ∧
      out = (sysProcessFlow current.sys_class_name).map (fun x =>
        { name := x.name, label := x.label, state := StepState.past,
          rgb_triplet := none }) ∧
      out.length = (sysProcessFlow current.sys_class_name).length ∧
      ∀ c ∈ out, c.state = StepState.past ∧ c.rgb_triplet = none := by
  refine ⟨_, getProcessFlowSteps_noMatch _ _ _ hv hne hno, rfl, by simp, ?_⟩
  intro c hc
  obtain ⟨x, _, rfl⟩ := List.mem_map.mp hc
  exact ⟨rfl, rfl⟩

/-- Witness for C4: the rows of `exRowsEnd`, with colours and an end step, under the
evaluator that never matches. -/
theorem no_match_all_past_witness :
    exRecord.isValidRecord = true ∧ exRowsEnd ≠ [] ∧
    (∀ x ∈ exRowsEnd, exCheckNone exRecord x.condition = false) ∧
    ∃ out, getProcessFlowSteps exCheckNone (fun _ => exRowsEnd) (some exRecord) = some out ∧
      out = exRowsEnd.map (fun x =>
        { name := x.name, label := x.label, state := StepState.past,
          rgb_triplet := none }) ∧
      out.length = exRowsEnd.length ∧
      ∀ c ∈ out, c.state = StepState.past ∧ c.rgb_triplet = none :=
  ⟨rfl, by decide, fun _ _ => rfl,
    no_match_all_past exCheckNone (fun _ => exRowsEnd) exRecord rfl (by decide)
      (fun _ _ => rfl)⟩

/-- C5: `getProcessFlowSteps` returns `null` exactly when `current` is null, or is not
a valid record, or the query finds no row for its table; it never returns an empty
list. -/
theorem null_iff_no_record_or_no_rows (checkRecord : GlideRecord → JSString → Bool)
    (sysProcessFlow : JSString → List ProcessFlowRow) (current : Option GlideRecord) :
    (getProcessFlowSteps checkRecord sysProcessFlow current = none ↔
      (current = none ∨ ∃ r, current = some r ∧
        (r.isValidRecord = false ∨ sysProcessFlow r.sys_class_name = []))) ∧
    getProcessFlowSteps checkRecord sysProcessFlow current ≠ some [] := by
  cases current with
  | none => simp [getProcessFlowSteps]
  | some r =>
    cases hv : r.isValidRecord with
    | false => simp [getProcessFlowSteps, hv]
    | true =>
      by_cases hne : sysProcessFlow r.sys_class_name = []
      · simp [getProcessFlowSteps, hv, hne]
      · rcases firstMatch_split checkRecord r (sysProcessFlow r.sys_class_name) with
          hno | ⟨pre, d, post, hrows, hno, hm⟩
        · rw [getProcessFlowSteps_noMatch _ _ _ hv hne hno]
          simp [hv, hne]
        · rw [getProcessFlowSteps_match _ _ _ pre post d hv hrows hno hm]
          simp [hv, hne]

/-- The functional notation is parsed: `_parseColor` is not `null` on it. -/
theorem parseColor_of_specFunctional {s : JSString} (h : SpecFunctional s) :
    _parseColor s ≠ none := by
  obtain ⟨pre, r, s1, g, s2, b, tail, hpre, hr, hs1, hg, hs2, hb, ht, rfl⟩ := h
  rw [parseColor_functional pre r s1 g s2 b tail hpre hr hs1 hg hs2 hb ht]
  exact Option.some_ne_none _

/-- The hexadecimal notation is parsed: `_parseColor` is not `null` on it. -/
theorem parseColor_of_specHex {s : JSString} (h : SpecHex s) : _parseColor s ≠ none := by
  obtain ⟨ds, rfl, hlen, hds⟩ := h
  have hx := hexExec_hex ds hlen hds
  rw [parseColor_unfold, rgbaExec_hash, hx]
  exact Option.some_ne_none _

/-- C6, amended: on `rgb(` or `rgba(`, three non-empty strings of decimal digits whose
base-10 values are below `2^53`, separated by non-empty runs of commas and spaces,
and `)`, `_parseColor` returns the three base-10 values, unclamped. -/
theorem rgb_channels_base10 (pre r s1 g s2 b : JSString)
    (hpre : pre = "rgb(".toList ∨ pre = "rgba(".toList)
    (hr : Run isDigit r) (hs1 : Run isSep s1) (hg : Run isDigit g) (hs2 : Run isSep s2)
    (hb : Run isDigit b)
    (hrv : mathInt 10 r < 2 ^ 53) (hgv : mathInt 10 g < 2 ^ 53) (hbv : mathInt 10 b < 2 ^ 53) :
    _parseColor (pre ++ r ++ s1 ++ g ++ s2 ++ b ++ ")".toList) =
      some [JSNum.num (mathInt 10 r), JSNum.num (mathInt 10 g), JSNum.num (mathInt 10 b)] := by
  have h := parseColor_functional pre r s1 g s2 b [] hpre hr hs1 hg hs2 hb (Or.inl rfl)
  rw [List.append_nil] at h
  rw [h, toNumber_small _ hrv, toNumber_small _ hgv, toNumber_small _ hbv]

/-- Witness for C6, amended: `rgb(999,999,999)` gives `(999, 999, 999)`. -/
theorem rgb_channels_base10_witness :
    Run isDigit "999".toList ∧ Run isSep ",".toList ∧ mathInt 10 "999".toList < 2 ^ 53 ∧
    _parseColor ("rgb(".toList ++ "999".toList ++ ",".toList ++ "999".toList ++ ",".toList ++
      "999".toList ++ ")".toList) =
      some [JSNum.num (mathInt 10 "999".toList), JSNum.num (mathInt 10 "999".toList),
        JSNum.num (mathInt 10 "999".toList)] ∧
    mathInt 10 "999".toList = 999 :=
  ⟨⟨by decide, by decide⟩, ⟨by decide, by decide⟩, by decide,
    rgb_channels_base10 "rgb(".toList "999".toList ",".toList "999".toList ",".toList
      "999".toList (Or.inl rfl) ⟨by decide, by decide⟩ ⟨by decide, by decide⟩
      ⟨by decide, by decide⟩ ⟨by decide, by decide⟩ ⟨by decide, by decide⟩
      (by decide) (by decide) (by decide),
    by decide⟩

/-- C6, as stated, fails: the channel `9007199254740993` (`2^53 + 1`) of
`rgb(9007199254740993,0,0)` comes back as `9007199254740992`, not as its base-10
value. -/
theorem rgb_channel_rounded :
    Run isDigit "9007199254740993".toList ∧
    mathInt 10 "9007199254740993".toList = 9007199254740993 ∧
    _parseColor "rgb(9007199254740993,0,0)".toList =
      some [JSNum.num 9007199254740992, JSNum.num 0, JSNum.num 0] ∧
    _parseColor "rgb(9007199254740993,0,0)".toList ≠
      some [JSNum.num (mathInt 10 "9007199254740993".toList),
        JSNum.num (mathInt 10 "0".toList), JSNum.num (mathInt 10 "0".toList)] :=
  ⟨⟨by decide, by decide⟩, by decide, by decide, by decide⟩

/-- C7 fails on the code: `#f0f` is not expanded to `#ff00ff`; its three slices are
`f0`, `f` and the empty string, so the result is `(240, 15, NaN)`, whereas `#ff00ff`
gives `(255, 0, 255)`. -/
theorem hex_short_form_not_expanded :
    _parseColor "#f0f".toList = some [JSNum.num 240, JSNum.num 15, JSNum.NaN] ∧
    _parseColor "#ff00ff".toList = some [JSNum.num 255, JSNum.num 0, JSNum.num 255] ∧
    _parseColor "#f0f".toList ≠ _parseColor "#ff00ff".toList :=
  ⟨by decide, by decide, by decide⟩

/-- C8: on `#` followed by six hexadecimal digits of any case `_parseColor` returns the
base-16 values of the digit pairs 1-2, 3-4 and 5-6; each is at most 255, and putting
the digits in lower or in upper case does not change the result. -/
theorem hex6_channels (d1 d2 d3 d4 d5 d6 : Char)
    (h1 : isHexDigit d1 = true) (h2 : isHexDigit d2 = true) (h3 : isHexDigit d3 = true)
    (h4 : isHexDigit d4 = true) (h5 : isHexDigit d5 = true) (h6 : isHexDigit d6 = true) :
    _parseColor ['#', d1, d2, d3, d4, d5, d6] =
      some [JSNum.num (mathInt 16 [d1, d2]), JSNum.num (mathInt 16 [d3, d4]),
        JSNum.num (mathInt 16 [d5, d6])] ∧
    mathInt 16 [d1, d2] ≤ 255 ∧ mathInt 16 [d3, d4] ≤ 255 ∧ mathInt 16 [d5, d6] ≤ 255 ∧
    _parseColor ('#' :: [d1, d2, d3, d4, d5, d6].map Char.toLower) =
      _parseColor ['#', d1, d2, d3, d4, d5, d6] ∧
    _parseColor ('#' :: [d1, d2, d3, d4, d5, d6].map Char.toUpper) =
      _parseColor ['#', d1, d2, d3, d4, d5, d6] := by
  obtain ⟨l1, v1, u1, w1⟩ := hexDigit_case h1
  obtain ⟨l2, v2, u2, w2⟩ := hexDigit_case h2
  obtain ⟨l3, v3, u3, w3⟩ := hexDigit_case h3
  obtain ⟨l4, v4, u4, w4⟩ := hexDigit_case h4
  obtain ⟨l5, v5, u5, w5⟩ := hexDigit_case h5
  obtain ⟨l6, v6, u6, w6⟩ := hexDigit_case h6
  refine ⟨parseColor_hex6 d1 d2 d3 d4 d5 d6 h1 h2 h3 h4 h5 h6,
    (parseInt_hexPair d1 d2 h1 h2).2, (parseInt_hexPair d3 d4 h3 h4).2,
    (parseInt_hexPair d5 d6 h5 h6).2, ?_, ?_⟩
  · rw [parseColor_hex6 d1 d2 d3 d4 d5 d6 h1 h2 h3 h4 h5 h6]
    simp only [List.map_cons, List.map_nil]
    rw [parseColor_hex6 _ _ _ _ _ _ l1 l2 l3 l4 l5 l6]
    simp [mathInt, v1, v2, v3, v4, v5, v6]
  · rw [parseColor_hex6 d1 d2 d3 d4 d5 d6 h1 h2 h3 h4 h5 h6]
    simp only [List.map_cons, List.map_nil]
    rw [parseColor_hex6 _ _ _ _ _ _ u1 u2 u3 u4 u5 u6]
    simp [mathInt, w1, w2, w3, w4, w5, w6]

/-- Witness for C8: `#ff00ff` gives `(255, 0, 255)`. -/
theorem hex6_channels_witness :
    isHexDigit 'f' = true ∧ isHexDigit '0' = true ∧
    (_parseColor ['#', 'f', 'f', '0', '0', 'f', 'f'] =
      some [JSNum.num (mathInt 16 ['f', 'f']), JSNum.num (mathInt 16 ['0', '0']),
        JSNum.num (mathInt 16 ['f', 'f'])] ∧
    mathInt 16 ['f', 'f'] ≤ 255 ∧ mathInt 16 ['0', '0'] ≤ 255 ∧ mathInt 16 ['f', 'f'] ≤ 255 ∧
    _parseColor ('#' :: ['f', 'f', '0', '0', 'f', 'f'].map Char.toLower) =
      _parseColor ['#', 'f', 'f', '0', '0', 'f', 'f'] ∧
    _parseColor ('#' :: ['f', 'f', '0', '0', 'f', 'f'].map Char.toUpper) =
      _parseColor ['#', 'f', 'f', '0', '0', 'f', 'f']) ∧
    mathInt 16 ['f', 'f'] = 255 ∧ mathInt 16 ['0', '0'] = 0 ∧
    _parseColor "#FFFFFF".toList = some [JSNum.num 255, JSNum.num 255, JSNum.num 255] :=
  ⟨by decide, by decide,
    hex6_channels 'f' 'f' '0' '0' 'f' 'f' (by decide) (by decide) (by decide) (by decide)
      (by decide) (by decide),
    by decide, by decide, by decide⟩

/-- C9: an alpha group (one or more of `,`, space and `/`, then one or more of digits,
`.` and `%`) between the third channel and `)` does not change the result: it is the
result for the input without the group, the Number values of the three channels. -/
theorem alpha_group_ignored (pre r s1 g s2 b sep alpha : JSString)
    (hpre : pre = "rgb(".toList ∨ pre = "rgba(".toList)
    (hr : Run isDigit r) (hs1 : Run isSep s1) (hg : Run isDigit g) (hs2 : Run isSep s2)
    (hb : Run isDigit b) (hsep : Run isAlphaSep sep) (halpha : Run isAlphaChar alpha) :
    _parseColor (pre ++ r ++ s1 ++ g ++ s2 ++ b ++ (sep ++ alpha) ++ ")".toList) =
      _parseColor (pre ++ r ++ s1 ++ g ++ s2 ++ b ++ ")".toList) ∧
    _parseColor (pre ++ r ++ s1 ++ g ++ s2 ++ b ++ ")".toList) =
      some [parseInt r 10, parseInt g 10, parseInt b 10] := by
  have h0 := parseColor_functional pre r s1 g s2 b [] hpre hr hs1 hg hs2 hb (Or.inl rfl)
  rw [List.append_nil] at h0
  have h1 := parseColor_functional pre r s1 g s2 b (sep ++ alpha) hpre hr hs1 hg hs2 hb
    (Or.inr ⟨sep, alpha, hsep, halpha, rfl⟩)
  refine ⟨by rw [h0, h1], ?_⟩
  rw [h0, parseInt_digits r hr, parseInt_digits g hg, parseInt_digits b hb]

/-- Witness for C9: `rgba(0 122 255 / 80%)` gives what `rgba(0 122 255)` gives,
`(0, 122, 255)`. -/
theorem alpha_group_ignored_witness :
    Run isAlphaSep " / ".toList ∧ Run isAlphaChar "80%".toList ∧
    (_parseColor ("rgba(".toList ++ "0".toList ++ " ".toList ++ "122".toList ++ " ".toList ++
        "255".toList ++ (" / ".toList ++ "80%".toList) ++ ")".toList) =
      _parseColor ("rgba(".toList ++ "0".toList ++ " ".toList ++ "122".toList ++ " ".toList ++
        "255".toList ++ ")".toList) ∧
    _parseColor ("rgba(".toList ++ "0".toList ++ " ".toList ++ "122".toList ++ " ".toList ++
        "255".toList ++ ")".toList) =
      some [parseInt "0".toList 10, parseInt "122".toList 10, parseInt "255".toList 10]) ∧
    _parseColor "rgba(0 122 255 / 80%)".toList =
      some [JSNum.num 0, JSNum.num 122, JSNum.num 255] ∧
    _parseColor "rgb(0 122 255)".toList = some [JSNum.num 0, JSNum.num 122, JSNum.num 255] :=
  ⟨⟨by decide, by decide⟩, ⟨by decide, by decide⟩,
    alpha_group_ignored "rgba(".toList "0".toList " ".toList "122".toList " ".toList
      "255".toList " / ".toList "80%".toList (Or.inr rfl) ⟨by decide, by decide⟩
      ⟨by decide, by decide⟩ ⟨by decide, by decide⟩ ⟨by decide, by decide⟩
      ⟨by decide, by decide⟩ ⟨by decide, by decide⟩ ⟨by decide, by decide⟩,
    by decide, by decide⟩

/-- C10: `_parseColor` returns `null` on every string that is neither of the functional
notation nor of the hexadecimal notation. -/
theorem null_outside_notations (s : JSString) (hf : ¬ SpecFunctional s) (hh : ¬ SpecHex s) :
    _parseColor s = none := by
  rw [parseColor_unfold]
  cases hx : rgbaExec s with
  | some m =>
    obtain ⟨r, g, b⟩ := m
    obtain ⟨pre, s1, s2, tail, hpre, hr, hs1, hg, hs2, hb, ht, hs⟩ := rgbaExec_some hx
    exact absurd ⟨pre, r, s1, g, s2, b, tail, hpre, hr, hs1, hg, hs2, hb, ht, hs⟩ hf
  | none =>
    cases hy : hexExec s with
    | some m0 => exact absurd (hexExec_some hy).2 hh
    | none => rfl

/-- Witness for C10: the six strings the specification lists are outside both
notations and give `null`. -/
theorem null_outside_notations_witness :
    (¬ SpecFunctional "not-a-color".toList ∧ ¬ SpecHex "not-a-color".toList ∧
      _parseColor "not-a-color".toList = none) ∧
    (¬ SpecFunctional "#ffff".toList ∧ ¬ SpecHex "#ffff".toList ∧
      _parseColor "#ffff".toList = none) ∧
    (¬ SpecFunctional "rgb(1,2)".toList ∧ ¬ SpecHex "rgb(1,2)".toList ∧
      _parseColor "rgb(1,2)".toList = none) ∧
    (¬ SpecFunctional "rgb(,,)".toList ∧ ¬ SpecHex "rgb(,,)".toList ∧
      _parseColor "rgb(,,)".toList = none) ∧
    (¬ SpecFunctional "rgb(-1,2,3)".toList ∧ ¬ SpecHex "rgb(-1,2,3)".toList ∧
      _parseColor "rgb(-1,2,3)".toList = none) ∧
    (¬ SpecFunctional "rgb(1,2,3,4,5)".toList ∧ ¬ SpecHex "rgb(1,2,3,4,5)".toList ∧
      _parseColor "rgb(1,2,3,4,5)".toList = none) := by
  have key : ∀ s : JSString, _parseColor s = none →
      ¬ SpecFunctional s ∧ ¬ SpecHex s ∧ _parseColor s = none := fun s hn =>
    ⟨fun h => parseColor_of_specFunctional h hn, fun h => parseColor_of_specHex h hn,
      null_outside_notations s (fun h => parseColor_of_specFunctional h hn)
        (fun h => parseColor_of_specHex h hn)⟩
  exact ⟨key _ (by decide), key _ (by decide), key _ (by decide), key _ (by decide),
    key _ (by decide), key _ (by decide)⟩

/-- C11, amended: `_parseColor` returns `null` or an array of exactly three Numbers, never
an array of another length; unless the input is `#` followed by three characters,
each of the three is a non-negative integer or `Infinity`. -/
theorem parseColor_null_or_triplet (input : JSString) :
    _parseColor input = none ∨
    ∃ a b c, _parseColor input = some [a, b, c] ∧
      ((∃ d1 d2 d3 : Char, input = ['#', d1, d2, d3]) ∨
        ((JSNum.isInteger a = true ∨ a = JSNum.Infinity) ∧
         (JSNum.isInteger b = true ∨ b = JSNum.Infinity) ∧
         (JSNum.isInteger c = true ∨ c = JSNum.Infinity))) := by
  cases h : _parseColor input with
  | none => exact Or.inl rfl
  | some arr =>
    right
    have hlen := parseColor_length h
    match arr, hlen, h with
    | [a, b, c], _, h =>
      refine ⟨a, b, c, rfl, ?_⟩
      by_cases hshort : ∃ d1 d2 d3 : Char, input = ['#', d1, d2, d3]
      · exact Or.inl hshort
      · right
        have hs : ∀ d1 d2 d3 : Char, input ≠ ['#', d1, d2, d3] :=
          fun d1 d2 d3 he => hshort ⟨d1, d2, d3, he⟩
        have hel := parseColor_elements hs h
        have conv : ∀ x : JSNum, (x = JSNum.Infinity ∨ ∃ m, x = JSNum.num m) →
            (JSNum.isInteger x = true ∨ x = JSNum.Infinity) := by
          intro x hx
          rcases hx with rfl | ⟨m, rfl⟩
          · exact Or.inr rfl
          · exact Or.inl rfl
        exact ⟨conv a (hel a (by simp)), conv b (hel b (by simp)), conv c (hel c (by simp))⟩

set_option maxRecDepth 100000 in
set_option exponentiation.threshold 2000 in
/-- C11, as stated, fails: a first channel of 309 digits `9` gives `Infinity`, which is
not an integer (and the short form `#f0f` gives a third element `NaN`). -/
theorem parseColor_not_integer :
    _parseColor ("rgb(".toList ++ List.replicate 309 '9' ++ ",0,0)".toList) =
      some [JSNum.Infinity, JSNum.num 0, JSNum.num 0] ∧
    JSNum.isInteger JSNum.Infinity = false ∧
    _parseColor "#f0f".toList = some [JSNum.num 240, JSNum.num 15, JSNum.NaN] ∧
    JSNum.isInteger JSNum.NaN = false :=
  ⟨by decide, rfl, by decide, rfl⟩

/-- C12: in the output for a valid record with at least one row, the step at index `i`
is built from the row at index `i`, and its `rgb_triplet` is set to `t` exactly when the
step is the `current` one, the `u_color` of its row is not nil and `_parseColor` returns
`t` on it (so a `current` step whose colour does not parse has state `current` and no
`rgb_triplet`); and rows that differ only in their colours give outputs that differ
at most in `rgb_triplet`. -/
theorem rgb_triplet_iff_parsed (checkRecord : GlideRecord → JSString → Bool)
    (sysProcessFlow : JSString → List ProcessFlowRow) (current : GlideRecord)
    (hv : current.isValidRecord = true)
    (hne : sysProcessFlow current.sys_class_name ≠ []) :
    ∃ out, getProcessFlowSteps checkRecord sysProcessFlow (some current) = some out ∧
      (∀ (i : Nat) (c : GlideChoice), out[i]? = some c →
        ∃ d, (sysProcessFlow current.sys_class_name)[i]? = some d ∧
          c.name = d.name ∧ c.label = d.label ∧
          ∀ t : List JSNum, c.rgb_triplet = some t ↔
            (c.state = StepState.current ∧ nilString d.u_color = false ∧
              _parseColor (d.u_color.getD []) = some t)) ∧
      (∀ otherColors : JSString → List ProcessFlowRow,
        (otherColors current.sys_class_name).map rowView =
          (sysProcessFlow current.sys_class_name).map rowView →
        ∃ out', getProcessFlowSteps checkRecord otherColors (some current) = some out' ∧
          out'.map stepView = out.map stepView) := by
  obtain ⟨out, hout, hpt⟩ := output_pointwise checkRecord sysProcessFlow current hv hne
  refine ⟨out, hout, ?_, ?_⟩
  · intro i c hc
    obtain ⟨d, hd, hcases⟩ := hpt i c hc
    refine ⟨d, hd, ?_⟩
    rcases hcases with rfl | rfl | rfl
    · refine ⟨rfl, rfl, fun t => ?_⟩
      simp [pastChoice]
    · refine ⟨rfl, rfl, fun t => ?_⟩
      simp [futureChoice]
    · refine ⟨rfl, rfl, fun t => ?_⟩
      have h := currentTriplet_eq_some d t
      simp only [currentChoice, true_and]
      exact h
  · intro otherColors hview
    have hne' : otherColors current.sys_class_name ≠ [] := by
      intro he
      rw [he] at hview
      simp at hview
      exact hne hview
    have hout' : out = (whileLoop checkRecord current (sysProcessFlow current.sys_class_name)
        initState).choices := by
      simp [getProcessFlowSteps, hv, hne] at hout
      rw [← hout]; rfl
    refine ⟨(whileLoop checkRecord current (otherColors current.sys_class_name)
        initState).choices, ?_, ?_⟩
    · simp [getProcessFlowSteps, hv, hne', initState]
    · rw [hout']
      exact whileLoop_view checkRecord current _ _ initState initState hview rfl rfl rfl

/-- Witness for C12: the rows `A`, `B` with the colour `not-a-color`, `C`. -/
theorem rgb_triplet_iff_parsed_witness :
    exRecord.isValidRecord = true ∧ exRowsBad ≠ [] ∧
    (∃ out, getProcessFlowSteps exCheck (fun _ => exRowsBad) (some exRecord) = some out ∧
      (∀ (i : Nat) (c : GlideChoice), out[i]? = some c →
        ∃ d, exRowsBad[i]? = some d ∧
          c.name = d.name ∧ c.label = d.label ∧
          ∀ t : List JSNum, c.rgb_triplet = some t ↔
            (c.state = StepState.current ∧ nilString d.u_color = false ∧
              _parseColor (d.u_color.getD []) = some t)) ∧
      (∀ otherColors : JSString → List ProcessFlowRow,
        (otherColors exRecord.sys_class_name).map rowView = exRowsBad.map rowView →
        ∃ out', getProcessFlowSteps exCheck otherColors (some exRecord) = some out' ∧
          out'.map stepView = out.map stepView)) ∧
    getProcessFlowSteps exCheck (fun _ => exRowsBad) (some exRecord) =
      some [pastChoice rowA,
        { name := rowBBad.name, label := rowBBad.label, state := StepState.current,
          rgb_triplet := none },
        futureChoice rowC] :=
  ⟨rfl, by decide,
    rgb_triplet_iff_parsed exCheck (fun _ => exRowsBad) exRecord rfl (by decide),
    by decide⟩

/-- C13, amended: an end step stops the loop only as the current step.  When the
rows are `pre ++ d :: post` and `d` is the first row that matches, the output holds
the steps of `pre ++ [d]` if `d` is an end step, and the steps of all the rows
otherwise, whatever rows of `post` match or are end steps. -/
theorem end_step_stops_only_as_current (checkRecord : GlideRecord → JSString → Bool)
    (sysProcessFlow : JSString → List ProcessFlowRow) (current : GlideRecord)
    (pre post : List ProcessFlowRow) (d : ProcessFlowRow)
    (hv : current.isValidRecord = true)
    (hrows : sysProcessFlow current.sys_class_name = pre ++ d :: post)
    (hno : ∀ x ∈ pre, checkRecord current x.condition = false)
    (hm : checkRecord current d.condition = true) :
    ∃ out, getProcessFlowSteps checkRecord sysProcessFlow (some current) = some out ∧
      out.map (fun c => (c.name, c.label)) =
        (if d.u_end_step then pre ++ [d] else pre ++ d :: post).map
          (fun x => (x.name, x.label)) ∧
      out.length = (if d.u_end_step then pre.length + 1 else (pre ++ d :: post).length) := by
  refine ⟨_, getProcessFlowSteps_match _ _ _ pre post d hv hrows hno hm, ?_, ?_⟩
  · cases he : d.u_end_step <;>
      simp [pastChoice, currentChoice, futureChoice, Function.comp_def]
  · cases he : d.u_end_step <;> simp

/-- Witness for C13, amended: in `exRowsLate` the first match `B` is not an end step and
the end step `C` that follows it matches. -/
theorem end_step_stops_only_as_current_witness :
    exRecord.isValidRecord = true ∧ exRowsLate = [] ++ rowBOpen :: [rowC, rowA] ∧
    (∀ x ∈ ([] : List ProcessFlowRow), exCheck exRecord x.condition = false) ∧
    exCheck exRecord rowBOpen.condition = true ∧
    ∃ out, getProcessFlowSteps exCheck (fun _ => exRowsLate) (some exRecord) = some out ∧
      out.map (fun c => (c.name, c.label)) =
        (if rowBOpen.u_end_step then ([] : List ProcessFlowRow) ++ [rowBOpen]
          else [] ++ rowBOpen :: [rowC, rowA]).map (fun x => (x.name, x.label)) ∧
      out.length =
        (if rowBOpen.u_end_step then ([] : List ProcessFlowRow).length + 1
          else ([] ++ rowBOpen :: [rowC, rowA]).length) :=
  ⟨rfl, rfl, by decide, rfl,
    end_step_stops_only_as_current exCheck (fun _ => exRowsLate) exRecord [] [rowC, rowA]
      rowBOpen rfl rfl (by decide) rfl⟩

/-- C13, as stated, fails: in `exRowsLate` the row `C` is an end step and matches, yet
the row `A` that comes after it is in the output, as a `future` step. -/
theorem late_end_step_does_not_stop :
    exRowsLate = [rowBOpen, rowC, rowA] ∧
    rowC.u_end_step = true ∧ exCheck exRecord rowC.condition = true ∧
    (getProcessFlowSteps exCheck (fun _ => exRowsLate) (some exRecord)).map
        (fun out => out.map stepView) =
      some [("B".toList, "Step B".toList, StepState.current),
        ("C".toList, "Step C".toList, StepState.future),
        ("A".toList, "Step A".toList, StepState.future)] :=
  ⟨rfl, rfl, rfl, by decide⟩

/-- C14 fails on the code: in the scenario `A`, `B` (end step, colour `#0f0`), `C` the
output is `A` as `past` and `B` as `current`, without `C`, but the `rgb_triplet` of `B` is
`(15, 0, NaN)`, not `(0, 255, 0)`. -/
theorem scenario_output :
    getProcessFlowSteps exCheck (fun _ => exScenario) (some exRecord) =
      some [{ name := "A".toList, label := "Step A".toList, state := StepState.past,
              rgb_triplet := none },
            { name := "B".toList, label := "Step B".toList, state := StepState.current,
              rgb_triplet := some [JSNum.num 15, JSNum.num 0, JSNum.NaN] }] ∧
    _parseColor "#0f0".toList ≠ some [JSNum.num 0, JSNum.num 255, JSNum.num 0] :=
  ⟨by decide, by decide⟩

/-- C15: the (name, label) pairs of a non-null output are a prefix of the (name, label)
pairs of the rows: the steps come in the order of the rows, none skipped, moved or
repeated. -/
theorem output_names_prefix (checkRecord : GlideRecord → JSString → Bool)
    (sysProcessFlow : JSString → List ProcessFlowRow) (current : GlideRecord)
    (out : List GlideChoice)
    (h : getProcessFlowSteps checkRecord sysProcessFlow (some current) = some out) :
    List.IsPrefix (out.map (fun c => (c.name, c.label)))
      ((sysProcessFlow current.sys_class_name).map (fun x => (x.name, x.label))) := by
  obtain ⟨hv, hne⟩ := getProcessFlowSteps_some _ _ _ _ h
  rcases firstMatch_split checkRecord current (sysProcessFlow current.sys_class_name) with
    hno | ⟨pre, d, post, hrows, hno, hm⟩
  · rw [getProcessFlowSteps_noMatch _ _ _ hv hne hno] at h
    have ho := Option.some.inj h
    rw [← ho]
    refine ⟨[], ?_⟩
    simp [pastChoice, Function.comp_def]
  · rw [getProcessFlowSteps_match _ _ _ pre post d hv hrows hno hm] at h
    have ho := Option.some.inj h
    rw [← ho, hrows]
    cases he : d.u_end_step with
    | true =>
      refine ⟨post.map (fun x => (x.name, x.label)), ?_⟩
      simp [pastChoice, currentChoice, Function.comp_def]
    | false =>
      refine ⟨[], ?_⟩
      simp [pastChoice, currentChoice, futureChoice, Function.comp_def]

/-- Witness for C15: the output for `exRowsEnd` holds the steps of `A` and `B`. -/
theorem output_names_prefix_witness :
    getProcessFlowSteps exCheck (fun _ => exRowsEnd) (some exRecord) =
      some [pastChoice rowA, currentChoice rowBEnd] ∧
    List.IsPrefix ([pastChoice rowA, currentChoice rowBEnd].map (fun c => (c.name, c.label)))
      (exRowsEnd.map (fun x => (x.name, x.label))) :=
  ⟨by decide,
    output_names_prefix exCheck (fun _ => exRowsEnd) exRecord
      [pastChoice rowA, currentChoice rowBEnd] (by decide)⟩

/-- In the model that records host calls only, a second call returns what the first
returns. -/
theorem getProcessFlowStepsTraced_twice (checkRecord : GlideRecord → JSString → Bool)
    (sysProcessFlow : JSString → List ProcessFlowRow) (current : Option GlideRecord)
    (calls : List HostCall) :
    (getProcessFlowStepsTraced checkRecord sysProcessFlow current
        (getProcessFlowStepsTraced checkRecord sysProcessFlow current calls).2).1 =
      (getProcessFlowStepsTraced checkRecord sysProcessFlow current calls).1 ∧
    (getProcessFlowStepsTraced checkRecord sysProcessFlow current calls).1 =
      getProcessFlowSteps checkRecord sysProcessFlow current := by
  rw [getProcessFlowStepsTraced_fst, getProcessFlowStepsTraced_fst]
  exact ⟨rfl, rfl⟩

/-- The method `exec` keeps state in its object: run a second time on the same object
and the same input, it starts at the `lastIndex` the first run has set and finds
nothing. -/
theorem exec_again_finds_nothing :
    ((emptyHost.newRegExp rgbaExp).2.exec 0 "rgb(0,0,0)".toList).1 =
      some ["rgb(0,0,0)".toList, "0".toList, "0".toList, "0".toList] ∧
    (((emptyHost.newRegExp rgbaExp).2.exec 0 "rgb(0,0,0)".toList).2.exec 0
      "rgb(0,0,0)".toList).1 = none :=
  ⟨by decide, by decide⟩

/-- C16: the output of a call of `getProcessFlowSteps` is the same in every state of the
host, whatever `RegExp` objects (with their `lastIndex`), cursors (with their position)
and host calls it holds; so a second call with the same record, rows and evaluator,
made in the host the first call leaves, returns the same output as the first. -/
theorem same_output_on_any_host (checkRecord : GlideRecord → JSString → Bool)
    (sysProcessFlow : JSString → List ProcessFlowRow) (current : Option GlideRecord)
    (h h' : Host) :
    (getProcessFlowStepsHost checkRecord sysProcessFlow current h).1 =
      (getProcessFlowStepsHost checkRecord sysProcessFlow current h').1 ∧
    (getProcessFlowStepsHost checkRecord sysProcessFlow current
        (getProcessFlowStepsHost checkRecord sysProcessFlow current h).2).1 =
      (getProcessFlowStepsHost checkRecord sysProcessFlow current h).1 ∧
    (getProcessFlowStepsHost checkRecord sysProcessFlow current h).1 =
      getProcessFlowSteps checkRecord sysProcessFlow current := by
  rw [getProcessFlowStepsHost_fst, getProcessFlowStepsHost_fst, getProcessFlowStepsHost_fst]
  exact ⟨rfl, rfl, rfl⟩

/-- Witness for C16: the first call on `exRowsOpen` leaves a `RegExp` object with
`lastIndex` 16, a cursor past its three rows and three host calls; the second call,
made in that host, returns the same three steps. -/
theorem same_output_on_any_host_witness :
    (getProcessFlowStepsHost exCheck (fun _ => exRowsOpen) (some exRecord)
      emptyHost).2.regExps.map (fun o => o.lastIndex) = [0, 16] ∧
    (getProcessFlowStepsHost exCheck (fun _ => exRowsOpen) (some exRecord)
      emptyHost).2.cursors.map (fun c => c.position) = [3] ∧
    (getProcessFlowStepsHost exCheck (fun _ => exRowsOpen) (some exRecord)
      emptyHost).2.calls.length = 3 ∧
    (getProcessFlowStepsHost exCheck (fun _ => exRowsOpen) (some exRecord)
      emptyHost).1 = some [pastChoice rowA, currentChoice rowBOpen, futureChoice rowC] ∧
    (getProcessFlowStepsHost exCheck (fun _ => exRowsOpen) (some exRecord)
        (getProcessFlowStepsHost exCheck (fun _ => exRowsOpen) (some exRecord) emptyHost).2).1 =
      (getProcessFlowStepsHost exCheck (fun _ => exRowsOpen) (some exRecord) emptyHost).1 :=
  ⟨by decide, by decide, by decide, by decide,
    (same_output_on_any_host exCheck (fun _ => exRowsOpen) (some exRecord)
      emptyHost emptyHost).2.1⟩

/-- C17, amended: the evaluator is called once in every iteration of the loop, that
is once on each row that gets a step in the output, in the order of the rows, also
on the rows after the first match. -/
theorem evaluator_called_on_every_step (checkRecord : GlideRecord → JSString → Bool)
    (sysProcessFlow : JSString → List ProcessFlowRow) (current : GlideRecord)
    (calls : List HostCall) (hv : current.isValidRecord = true)
    (hne : sysProcessFlow current.sys_class_name ≠ []) :
    ∃ out,
      (getProcessFlowStepsTraced checkRecord sysProcessFlow (some current) calls).1 =
        some out ∧
      checkedConditions
          (getProcessFlowStepsTraced checkRecord sysProcessFlow (some current) calls).2 =
        checkedConditions calls ++
          ((sysProcessFlow current.sys_class_name).take out.length).map
            (fun d => d.condition) := by
  obtain ⟨out, hout, hc⟩ :=
    getProcessFlowStepsTraced_checked checkRecord sysProcessFlow current calls hv hne
  exact ⟨out, by rw [getProcessFlowStepsTraced_fst, hout], hc⟩

/-- Witness for C17, amended: on `exRowsOpen` the output has three steps and the evaluator
is called on the three rows. -/
theorem evaluator_called_on_every_step_witness :
    exRecord.isValidRecord = true ∧ exRowsOpen ≠ [] ∧
    ∃ out,
      (getProcessFlowStepsTraced exCheck (fun _ => exRowsOpen) (some exRecord) []).1 =
        some out ∧
      checkedConditions
          (getProcessFlowStepsTraced exCheck (fun _ => exRowsOpen) (some exRecord) []).2 =
        checkedConditions [] ++ (exRowsOpen.take out.length).map (fun d => d.condition) :=
  ⟨rfl, by decide,
    evaluator_called_on_every_step exCheck (fun _ => exRowsOpen) exRecord [] rfl
      (by decide)⟩

/-- C17, as stated, fails: in `exRowsOpen` the first row that matches is `B`, at index 1,
and the evaluator is also called on the condition of `C`, which comes after it. -/
theorem evaluator_called_after_match :
    exRowsOpen = [rowA, rowBOpen, rowC] ∧
    exCheck exRecord rowA.condition = false ∧ exCheck exRecord rowBOpen.condition = true ∧
    checkedConditions
        (getProcessFlowStepsTraced exCheck (fun _ => exRowsOpen) (some exRecord) []).2 =
      [rowA.condition, rowBOpen.condition, rowC.condition] ∧
    checkedConditions
        (getProcessFlowStepsTraced exCheck (fun _ => exRowsOpen) (some exRecord) []).2 ≠
      [rowA.condition, rowBOpen.condition] :=
  ⟨rfl, rfl, rfl, by decide, by decide⟩

/-- C18: two runs on valid records whose rows have the same names and labels return
the same output when no row matches in either, or when the first matching rows
stand at the same index and have the same `u_end_step` and `u_color`; conditions,
evaluators, and the `u_end_step` and `u_color` of the other rows may differ. -/
theorem output_depends_on_first_match
    (checkRecord1 checkRecord2 : GlideRecord → JSString → Bool)
    (sysProcessFlow1 sysProcessFlow2 : JSString → List ProcessFlowRow)
    (current1 current2 : GlideRecord)
    (hv1 : current1.isValidRecord = true) (hv2 : current2.isValidRecord = true)
    (hne : sysProcessFlow1 current1.sys_class_name ≠ [])
    (hnames : (sysProcessFlow1 current1.sys_class_name).map (fun x => (x.name, x.label)) =
      (sysProcessFlow2 current2.sys_class_name).map (fun x => (x.name, x.label)))
    (hfirst :
      ((∀ x ∈ sysProcessFlow1 current1.sys_class_name,
          checkRecord1 current1 x.condition = false) ∧
        (∀ x ∈ sysProcessFlow2 current2.sys_class_name,
          checkRecord2 current2 x.condition = false)) ∨
      ∃ pre1 d1 post1 pre2 d2 post2,
        sysProcessFlow1 current1.sys_class_name = pre1 ++ d1 :: post1 ∧
        sysProcessFlow2 current2.sys_class_name = pre2 ++ d2 :: post2 ∧
        pre1.length = pre2.length ∧
        (∀ x ∈ pre1, checkRecord1 current1 x.condition = false) ∧
        (∀ x ∈ pre2, checkRecord2 current2 x.condition = false) ∧
        checkRecord1 current1 d1.condition = true ∧
        checkRecord2 current2 d2.condition = true ∧
        d1.u_end_step = d2.u_end_step ∧ d1.u_color = d2.u_color) :
    getProcessFlowSteps checkRecord1 sysProcessFlow1 (some current1) =
      getProcessFlowSteps checkRecord2 sysProcessFlow2 (some current2) := by
  have hne2 : sysProcessFlow2 current2.sys_class_name ≠ [] := by
    intro he
    rw [he] at hnames
    simp at hnames
    exact hne hnames
  have hpast : ∀ rows : List ProcessFlowRow, rows.map pastChoice =
      (rows.map (fun x => (x.name, x.label))).map
        (fun nl => GlideChoice.mk nl.1 nl.2 StepState.past none) := by
    intro rows; simp [pastChoice, Function.comp_def]
  have hfuture : ∀ rows : List ProcessFlowRow, rows.map futureChoice =
      (rows.map (fun x => (x.name, x.label))).map
        (fun nl => GlideChoice.mk nl.1 nl.2 StepState.future none) := by
    intro rows; simp [futureChoice, Function.comp_def]
  rcases hfirst with ⟨hno1, hno2⟩ | ⟨pre1, d1, post1, pre2, d2, post2, hr1, hr2, hlen, hno1, hno2,
    hm1, hm2, hend, hcol⟩
  · rw [getProcessFlowSteps_noMatch _ _ _ hv1 hne hno1,
      getProcessFlowSteps_noMatch _ _ _ hv2 hne2 hno2, hpast, hpast, hnames]
  · rw [getProcessFlowSteps_match _ _ _ pre1 post1 d1 hv1 hr1 hno1 hm1,
      getProcessFlowSteps_match _ _ _ pre2 post2 d2 hv2 hr2 hno2 hm2]
    rw [hr1, hr2, List.map_append, List.map_append, List.map_cons, List.map_cons] at hnames
    have hl : (pre1.map (fun x => (x.name, x.label))).length =
        (pre2.map (fun x => (x.name, x.label))).length := by simp [hlen]
    obtain ⟨hpre, hrest⟩ := List.append_inj hnames hl
    simp only [List.cons.injEq, Prod.mk.injEq] at hrest
    obtain ⟨⟨hname, hlabel⟩, hpost⟩ := hrest
    have hcur : currentChoice d1 = currentChoice d2 := by
      simp [currentChoice, currentTriplet, hname, hlabel, hcol]
    rw [hpast pre1, hpast pre2, hpre, hcur, hend, hfuture post1, hfuture post2, hpost]

/-- Witness for C18: `exRowsEnd` and `exScenario` have the same names and labels and the
same first match `B` at index 1; their third rows differ in `u_end_step` and `u_color`,
and the two outputs are equal. -/
theorem output_depends_on_first_match_witness :
    exRecord.isValidRecord = true ∧ exRowsEnd ≠ [] ∧
    exRowsEnd.map (fun x => (x.name, x.label)) = exScenario.map (fun x => (x.name, x.label)) ∧
    exRowsEnd = [rowA] ++ rowBEnd :: [rowC] ∧ exScenario = [rowA] ++ rowBEnd :: [rowCOpen] ∧
    rowC.u_end_step ≠ rowCOpen.u_end_step ∧ rowC.u_color ≠ rowCOpen.u_color ∧
    getProcessFlowSteps exCheck (fun _ => exRowsEnd) (some exRecord) =
      getProcessFlowSteps exCheck (fun _ => exScenario) (some exRecord) :=
  ⟨rfl, by decide, by decide, rfl, rfl, by decide, by decide,
    output_depends_on_first_match exCheck exCheck (fun _ => exRowsEnd) (fun _ => exScenario)
      exRecord exRecord rfl rfl (by decide) (by decide)
      (Or.inr ⟨[rowA], rowBEnd, [rowC], [rowA], rowBEnd, [rowCOpen], rfl, rfl, rfl,
        by decide, by decide, rfl, rfl, rfl, rfl⟩)⟩

end ProcessFlowUtils
